import Mathlib

/-!
# Puck: a BLE peripheral controller (`BLE_API/puck/Puck.h`)

A shallow embedding of the `Puck` class and of the free functions next to it.

* `std::vector` fields are lists in index order: `push_back` appends at the
  end, `back` reads the last element, `pop_back` drops it.
* The calls the controller makes on its `BLEDevice` are recorded, in order, in
  the field `ble`; what the radio stack does with them is outside the class.
* `malloc` and `free` act on an explicit heap of blocks, a pointer being the
  index of its block.  A block never gets an index used before.  Whether a
  `malloc` call of `addCharacteristic` is served is not for the controller to
  decide: the field `mallocOutcomes` holds the outcomes of the coming calls,
  and past its end every call is served.  The bindings of
  `onCharacteristicWrite` are kept as values, not as blocks of this heap, and
  their allocation, like every `new`, is taken as served.
* A `GattCharacteristic*` is the index of the object in allocation order,
  which is its index in the vector `characteristics` (objects are only ever
  appended there).
* A write callback is a function pointer; its effect on the controller when
  it is invoked is given by an environment `CallbackEnv`.
* `LOG_*` diagnostics have no effect on the controller and are left out.
-/

/-- The connection state of the controller, `enum PuckState`. -/
inductive PuckState where
  | CONNECTING
  | CONNECTED
  | ADVERTISING
  | DISCONNECTED
  deriving DecidableEq, Repr

/-- Modelled from the spec: the `UUID` class of BLE_API is not among the
sources.  A UUID is a 128-bit base (16 bytes) together with a short UUID. -/
structure UUID where
  baseUUID : List Nat
  shortUUID : Nat
  deriving DecidableEq, Repr

/-- Byte `i` of the base UUID (`getBaseUUID()[i]`). -/
def UUID.getBaseUUID (u : UUID) (i : Nat) : Nat :=
  u.baseUUID.getD i 0

/-- The loop `for (i = ..; i < 16; i++) if (uuidABase[i] != uuidBBase[i]) return false;`
with `n` iterations left, at index `i`. -/
def baseUUIDEqualFrom (uuidABase uuidBBase : Nat → Nat) : Nat → Nat → Bool
  | 0, _ => true
  | n + 1, i =>
    if uuidABase i != uuidBBase i then false
    else baseUUIDEqualFrom uuidABase uuidBBase n (i + 1)

/-- The comparator `isEqualUUID(uuidA, uuidB)`. -/
def isEqualUUID (uuidA uuidB : UUID) : Bool :=
  if !(baseUUIDEqualFrom uuidA.getBaseUUID uuidB.getBaseUUID 16 0) then false
  else if uuidA.shortUUID != uuidB.shortUUID then false
  else true

/-- A block of the heap: a characteristic value buffer (contents not
modelled), an array of `GattCharacteristic*` (`none` is `NULL`), or a block
that has been released. -/
inductive Block where
  | bytes (size : Nat)
  | charArray (cells : List (Option Nat))
  | freed
  deriving DecidableEq, Repr

/-- Ways in which a call leaves defined behaviour or aborts. -/
inductive Fault where
  | assertion
  | useAfterFree
  | wildPointer
  | invalidFree
  | nullPointer
  | emptyBack
  | outOfFuel
  deriving DecidableEq, Repr

/-- Modelled from the spec: `GattCharacteristic` of BLE_API is not among the
sources.  The record keeps the UUID of the value attribute, the pointer to the
value buffer (`none` is `NULL`) and its length, the properties, and the value
handle, which is 0 until the stack assigns one. -/
structure GattCharacteristic where
  uuid : UUID
  valuePtr : Option Nat
  len : Nat
  properties : Int
  handle : Nat
  deriving DecidableEq, Repr

/-- Modelled from the spec: `GattService` of BLE_API is not among the sources.
A service keeps its UUID, the pointer to the characteristic array it was
constructed over (it does not copy the array) and the number of entries. -/
structure GattService where
  uuid : UUID
  characteristics : Nat
  characteristicCount : Nat
  deriving DecidableEq, Repr

/-- The record `CharacteristicWriteCallbacks`: a UUID and the callbacks bound
to it.  The source keeps a `const UUID*`; the UUID it points to is taken not
to change after registration. -/
structure CharacteristicWriteCallbacks where
  uuid : UUID
  callbacks : List Nat
  deriving DecidableEq, Repr

/-- The calls the controller makes on its `BLEDevice`. -/
inductive BleCall where
  | init
  | setDeviceName (name : List Nat)
  | accumulateAdvertisingPayloadFlags
  | accumulateAdvertisingPayload (payload : List Nat)
  | setAdvertisingType
  | setAdvertisingInterval (interval : Nat)
  | onDisconnection
  | onConnection
  | onDataWritten
  | addService (service : GattService)
  | startAdvertising
  | stopAdvertising
  | disconnect
  | waitForEvent
  | updateCharacteristicValue (handle : Nat) (value : Nat) (length : Int)
  deriving DecidableEq, Repr

/-- The fields of `class Puck`, the heap the class allocates on, and the
outcomes of the coming `malloc` calls in order (`false`: the call returns
`NULL`; past the end of the list every call is served). -/
structure Puck where
  ble : List BleCall
  beaconPayload : List Nat
  state : PuckState
  services : List GattService
  characteristics : List GattCharacteristic
  writeCallbacks : List CharacteristicWriteCallbacks
  pendingCallbackStack : List Nat
  pendingCallbackParameterDataStack : List Nat
  pendingCallbackParameterLengthStack : List Nat
  previousCharacteristics : Option Nat
  heap : List Block
  mallocOutcomes : List Bool
  deriving DecidableEq, Repr

/-- The singleton as it is before any call: a zero-initialised static object
with empty vectors and an empty heap, on which every `malloc` is served. -/
def Puck.fresh : Puck where
  ble := []
  beaconPayload := List.replicate 25 0
  state := PuckState.CONNECTING
  services := []
  characteristics := []
  writeCallbacks := []
  pendingCallbackStack := []
  pendingCallbackParameterDataStack := []
  pendingCallbackParameterLengthStack := []
  previousCharacteristics := none
  heap := []
  mallocOutcomes := []

namespace Puck

/-- The accessor `getState()`. -/
def getState (p : Puck) : PuckState := p.state

/-- The setter `setState(state)`. -/
def setState (state : PuckState) (p : Puck) : Puck :=
  { p with state := state }

/-- The initial contents of the local array `beaconPayloadTemplate` in `init`. -/
def beaconPayloadTemplate : List Nat :=
  [0x00, 0x00,
   0x02,
   0x15,
   0xE2, 0x0A, 0x39, 0xF4, 0x73, 0xF5, 0x4B, 0xC4,
   0xA1, 0x2F, 0x17, 0xD1, 0xAD, 0x07, 0xA9, 0x61,
   0x13, 0x37,
   0x00, 0x00,
   0xC8]

/-- The uppercase hexadecimal digit character for a digit value below 16. -/
def upperHexChar (d : Nat) : Nat :=
  if d < 10 then 48 + d else 65 + (d - 10)

/-- The base-16 digit values of `n`, least significant first. -/
def hexDigitsRev : Nat → Nat → List Nat
  | 0, _ => []
  | fuel + 1, n => if n < 16 then [n] else (n % 16) :: hexDigitsRev fuel (n / 16)

/-- The conversion `%04X` of `sprintf`: uppercase hexadecimal, padded with
zeros on the left to at least four characters. -/
def format04X (n : Nat) : List Nat :=
  let ds := ((hexDigitsRev (n + 1) n).reverse).map upperHexChar
  List.replicate (4 - ds.length) 48 ++ ds

/-- The buffer `deviceName` after `sprintf(&deviceName[0], "Puck %04X", minor)`
and `deviceName[9] = 0`. -/
def deviceName (minor : Nat) : List Nat :=
  ([80, 117, 99, 107, 32] ++ format04X minor ++ [0]).set 9 0

/-- The loop of `init` that hands every service to the stack. -/
def addServices : List GattService → List BleCall
  | [] => []
  | s :: rest => BleCall.addService s :: addServices rest

/-- The method `init(minor)`; `minor` is a `uint16_t`, the two bytes stored in
the template are `uint8_t`.  The value handles the stack gives to the
characteristics of the services it is handed are chosen by the stack and are
not part of this method. -/
def init (minor : Nat) (p : Puck) : Puck :=
  let template0 := beaconPayloadTemplate.set 22 ((minor >>> 8) % 256)
  let template1 := template0.set 23 ((minor &&& 255) % 256)
  let p1 := { p with beaconPayload := (List.range 25).map (fun i => template1.getD i 0) }
  let p2 := { p1 with ble := p1.ble ++ [BleCall.init] }
  let p3 := setState PuckState.DISCONNECTED p2
  let p4 := { p3 with ble := p3.ble ++
    [BleCall.setDeviceName (deviceName minor),
     BleCall.accumulateAdvertisingPayloadFlags,
     BleCall.accumulateAdvertisingPayload p3.beaconPayload,
     BleCall.setAdvertisingType,
     BleCall.setAdvertisingInterval 160,
     BleCall.onDisconnection,
     BleCall.onConnection,
     BleCall.onDataWritten] }
  { p4 with ble := p4.ble ++ addServices p4.services }

/-- The method `startAdvertising()`. -/
def startAdvertising (p : Puck) : Puck :=
  setState PuckState.ADVERTISING { p with ble := p.ble ++ [BleCall.startAdvertising] }

/-- The method `stopAdvertising()`. -/
def stopAdvertising (p : Puck) : Puck :=
  if p.state = PuckState.ADVERTISING then
    setState PuckState.DISCONNECTED { p with ble := p.ble ++ [BleCall.stopAdvertising] }
  else
    p

/-- The method `disconnect()`. -/
def disconnect (p : Puck) : Puck :=
  { p with ble := p.ble ++ [BleCall.disconnect] }

end Puck

/-- Modelled from the spec: `GattService::getCharacteristic(index)` of BLE_API
is not among the sources.  An index that is not below the count gives `NULL`;
otherwise the cell is read from the array the service points to. -/
def GattService.getCharacteristic (heap : List Block) (service : GattService) (i : Nat) :
    Except Fault (Option Nat) :=
  if i ≥ service.characteristicCount then Except.ok none
  else
    match heap[service.characteristics]? with
    | some (Block.charArray cells) =>
      match cells[i]? with
      | some c => Except.ok c
      | none => Except.error Fault.wildPointer
    | some Block.freed => Except.error Fault.useAfterFree
    | _ => Except.error Fault.wildPointer

/-- The entries a service exposes, read through its array pointer; `none` when
the pointer does not point to a live array of at least `characteristicCount`
cells. -/
def GattService.characteristicArray (heap : List Block) (service : GattService) :
    Option (List (Option Nat)) :=
  match heap[service.characteristics]? with
  | some (Block.charArray cells) =>
    if service.characteristicCount ≤ cells.length then
      some (cells.take service.characteristicCount)
    else none
  | _ => none

/-- Modelled from the spec: the macro `MBED_ASSERT` is not among the sources.
A failed assertion is fatal: the call aborts. -/
def mbedAssert (cond : Bool) : Except Fault Unit :=
  if cond then Except.ok () else Except.error Fault.assertion

/-- The call `malloc` for a block `b`: the pointer returned (`none` is `NULL`),
the outcomes left for later calls, and the heap.  The first of `outcomes`
tells whether the call is served; a served call appends the block. -/
def heapMalloc (b : Block) (outcomes : List Bool) (heap : List Block) :
    Option Nat × List Bool × List Block :=
  match outcomes with
  | false :: rest => (none, rest, heap)
  | true :: rest => (some heap.length, rest, heap ++ [b])
  | [] => (some heap.length, [], heap ++ [b])

/-- The call `free(ptr)`: `free(NULL)` does nothing, a live block is released,
anything else is undefined. -/
def heapFree (ptr : Option Nat) (heap : List Block) : Except Fault (List Block) :=
  match ptr with
  | none => Except.ok heap
  | some a =>
    match heap[a]? with
    | some Block.freed => Except.error Fault.invalidFree
    | some _ => Except.ok (heap.set a Block.freed)
    | none => Except.error Fault.invalidFree

/-- The store `array[i] = v` into a characteristic array on the heap. -/
def heapWriteCell (heap : List Block) (array i : Nat) (v : Option Nat) :
    Except Fault (List Block) :=
  match heap[array]? with
  | some (Block.charArray cells) =>
    if i < cells.length then Except.ok (heap.set array (Block.charArray (cells.set i v)))
    else Except.error Fault.wildPointer
  | some Block.freed => Except.error Fault.useAfterFree
  | _ => Except.error Fault.wildPointer

namespace Puck

/-- The scan `for (i = 0; i < services.size(); i++) if (isEqualUUID(...)) { ...; break; }`
of `addCharacteristic`: the index of the first service with the UUID. -/
def findServiceIndex (serviceUuid : UUID) : List GattService → Option Nat
  | [] => none
  | s :: rest =>
    if isEqualUUID s.uuid serviceUuid then some 0
    else (findServiceIndex serviceUuid rest).map (fun i => i + 1)

/-- The loop `for (i = ..; i < characteristicsLength; i++) characteristics[i] = service->getCharacteristic(i);`
with `n` iterations left, at index `i`: the values stored. -/
def copyCharacteristics (heap : List Block) (service : GattService) :
    Nat → Nat → Except Fault (List (Option Nat))
  | 0, _ => Except.ok []
  | n + 1, i =>
    match service.getCharacteristic heap i with
    | Except.error e => Except.error e
    | Except.ok c =>
      match copyCharacteristics heap service n (i + 1) with
      | Except.error e => Except.error e
      | Except.ok rest => Except.ok (c :: rest)

/-- The method `addCharacteristic(serviceUuid, characteristicUuid, bytes,
properties)`; `bytes` and `properties` are `int`, `size` is a `uint16_t`.  A
call that aborts or leaves defined behaviour hands back the fault together with
the controller as it is at that point.  A value buffer that could not be
allocated is reported and the call goes on with `NULL`; an array that could
not be allocated is reported too, and the first store into it, which in the
copy loop follows the first `getCharacteristic(0)`, goes through `NULL`. -/
def addCharacteristic (serviceUuid characteristicUuid : UUID) (bytes properties : Int)
    (p : Puck) : Except (Fault × Puck) Puck :=
  match mbedAssert (decide (bytes ≤ 20)) with
  | Except.error e => Except.error (e, p)
  | Except.ok _ =>
    let size := (bytes % 65536).toNat
    let m := heapMalloc (Block.bytes size) p.mallocOutcomes p.heap
    let value := m.1
    let characteristic := p.characteristics.length
    let p1 : Puck := { p with
      mallocOutcomes := m.2.1
      heap := m.2.2
      characteristics := p.characteristics ++
        [{ uuid := characteristicUuid, valuePtr := value, len := size,
           properties := properties, handle := 0 }] }
    match findServiceIndex serviceUuid p1.services with
    | some removeIndex =>
      match p1.services[removeIndex]? with
      | none => Except.error (Fault.wildPointer, p1)
      | some service =>
        let characteristicsLength := service.characteristicCount + 1
        let a := heapMalloc (Block.charArray (List.replicate characteristicsLength none))
          p1.mallocOutcomes p1.heap
        let p2 : Puck := { p1 with mallocOutcomes := a.2.1 }
        match a.1 with
        | none =>
          match service.getCharacteristic p1.heap 0 with
          | Except.error e => Except.error (e, p2)
          | Except.ok _ => Except.error (Fault.nullPointer, p2)
        | some characteristics =>
          match copyCharacteristics p1.heap service characteristicsLength 0 with
          | Except.error e => Except.error (e, { p2 with heap := a.2.2 })
          | Except.ok cells =>
            let heap2 := p1.heap ++ [Block.charArray cells]
            let services1 := p1.services.eraseIdx removeIndex
            match heapFree p1.previousCharacteristics heap2 with
            | Except.error e =>
              Except.error (e, { p2 with heap := heap2, services := services1 })
            | Except.ok heap3 =>
              match heapWriteCell heap3 characteristics (characteristicsLength - 1)
                  (some characteristic) with
              | Except.error e =>
                Except.error (e, { p2 with heap := heap3, services := services1 })
              | Except.ok heap4 =>
                Except.ok { p2 with
                  heap := heap4
                  previousCharacteristics := some characteristics
                  services := services1 ++
                    [{ uuid := serviceUuid, characteristics := characteristics,
                       characteristicCount := characteristicsLength }] }
    | none =>
      let characteristicsLength := 1
      let a := heapMalloc (Block.charArray (List.replicate characteristicsLength none))
        p1.mallocOutcomes p1.heap
      let p2 : Puck := { p1 with mallocOutcomes := a.2.1 }
      match a.1 with
      | none => Except.error (Fault.nullPointer, p2)
      | some characteristics =>
        match heapWriteCell a.2.2 characteristics (characteristicsLength - 1)
            (some characteristic) with
        | Except.error e => Except.error (e, { p2 with heap := a.2.2 })
        | Except.ok heap4 =>
          Except.ok { p2 with
            heap := heap4
            previousCharacteristics := some characteristics
            services := p1.services ++
              [{ uuid := serviceUuid, characteristics := characteristics,
                 characteristicCount := characteristicsLength }] }

/-- The scan of `updateCharacteristicValue` and `getCharacteristicValue`: the
first characteristic whose value attribute has the UUID. -/
def findCharacteristic (uuid : UUID) : List GattCharacteristic → Option GattCharacteristic
  | [] => none
  | c :: rest => if isEqualUUID c.uuid uuid then some c else findCharacteristic uuid rest

/-- The method `updateCharacteristicValue(uuid, value, length)`. -/
def updateCharacteristicValue (uuid : UUID) (value : Nat) (length : Int) (p : Puck) : Puck :=
  match findCharacteristic uuid p.characteristics with
  | some characteristic =>
    { p with ble := p.ble ++
        [BleCall.updateCharacteristicValue characteristic.handle value length] }
  | none => p

/-- The method `getCharacteristicValue(uuid)`; `none` is `NULL`.  The method
only reads the controller. -/
def getCharacteristicValue (uuid : UUID) (p : Puck) : Option Nat :=
  match findCharacteristic uuid p.characteristics with
  | some characteristic => characteristic.valuePtr
  | none => none

/-- The scan of `onCharacteristicWrite` over `writeCallbacks` followed by the
`push_back` on the binding found, or on a new binding appended at the end when
none has the UUID. -/
def bindCallback (uuid : UUID) (callback : Nat) :
    List CharacteristicWriteCallbacks → List CharacteristicWriteCallbacks
  | [] => [{ uuid := uuid, callbacks := [callback] }]
  | cb :: rest =>
    if isEqualUUID cb.uuid uuid then
      { cb with callbacks := cb.callbacks ++ [callback] } :: rest
    else cb :: bindCallback uuid callback rest

/-- The method `onCharacteristicWrite(uuid, callback)`. -/
def onCharacteristicWrite (uuid : UUID) (callback : Nat) (p : Puck) : Puck :=
  { p with writeCallbacks := bindCallback uuid callback p.writeCallbacks }

/-- The inner scan of `onDataWritten` over `writeCallbacks`: the first binding
whose UUID equals the UUID of the characteristic. -/
def findWriteCallbacks (uuid : UUID) :
    List CharacteristicWriteCallbacks → Option CharacteristicWriteCallbacks
  | [] => none
  | cb :: rest =>
    if isEqualUUID cb.uuid uuid then some cb else findWriteCallbacks uuid rest

/-- The loop over `k` of `onDataWritten`: one entry on each of the three
pending stacks for every callback of the binding. -/
def pushPending (data length : Nat) : List Nat → Puck → Puck
  | [], p => p
  | callback :: rest, p =>
    pushPending data length rest { p with
      pendingCallbackStack := p.pendingCallbackStack ++ [callback]
      pendingCallbackParameterDataStack := p.pendingCallbackParameterDataStack ++ [data]
      pendingCallbackParameterLengthStack := p.pendingCallbackParameterLengthStack ++ [length] }

/-- The outer loop of `onDataWritten` over the characteristics still to visit. -/
def onDataWrittenFrom (handle data length : Nat) (p : Puck) : List GattCharacteristic → Puck
  | [] => p
  | characteristic :: rest =>
    if characteristic.handle = handle then
      match findWriteCallbacks characteristic.uuid p.writeCallbacks with
      | some cb => pushPending data length cb.callbacks p
      | none => onDataWrittenFrom handle data length p rest
    else onDataWrittenFrom handle data length p rest

/-- The method `onDataWritten(handle, data, length)`; `data` is the pointer the
stack passes, `length` a `uint8_t`. -/
def onDataWritten (handle data length : Nat) (p : Puck) : Puck :=
  onDataWrittenFrom handle data length p p.characteristics

end Puck

/-- The handler `onDisconnection`, acting on the singleton. -/
def onDisconnection (p : Puck) : Puck :=
  Puck.setState PuckState.DISCONNECTED p

/-- The handler `onConnection`, acting on the singleton. -/
def onConnection (p : Puck) : Puck :=
  Puck.setState PuckState.CONNECTED p

/-- The handler `onDataWrittenCallback(params)`: `params->len` is a `uint16_t`
and is passed on as a `uint8_t`. -/
def onDataWrittenCallback (handle data len : Nat) (p : Puck) : Puck :=
  Puck.onDataWritten handle data (len % 256) p

/-- An event the stack reports to the handlers hooked up in `init`. -/
inductive BleEvent where
  | connection
  | disconnection
  | dataWritten (handle data len : Nat)
  deriving DecidableEq, Repr

/-- The handler the stack runs for an event. -/
def BleEvent.dispatch : BleEvent → Puck → Puck
  | BleEvent.connection, p => onConnection p
  | BleEvent.disconnection, p => onDisconnection p
  | BleEvent.dataWritten handle data len, p => onDataWrittenCallback handle data len p

/-- One call of a write callback: the function pointer and the two arguments. -/
structure Invocation where
  callback : Nat
  data : Nat
  length : Nat
  deriving DecidableEq, Repr

/-- What running the callback at a function pointer, with a data pointer and a
length, does to the controller. -/
abbrev CallbackEnv := Nat → Nat → Nat → Puck → Puck

/-- What `drive` hands back: the controller, the callbacks it invoked in order,
and the returned `bool`. -/
structure DriveResult where
  puck : Puck
  invoked : List Invocation
  result : Bool
  deriving DecidableEq, Repr

namespace Puck

/-- The call `ble.waitForEvent()` during which the stack reports `events`, in
order, to the handlers. -/
def waitForEvent (events : List BleEvent) (p : Puck) : Puck :=
  events.foldl (fun q e => e.dispatch q) { p with ble := p.ble ++ [BleCall.waitForEvent] }

/-- The three `pop_back()` of the drain loop; `pop_back` on an empty vector is
undefined. -/
def popPending (p : Puck) : Except Fault Puck :=
  if p.pendingCallbackStack = [] ∨ p.pendingCallbackParameterDataStack = [] ∨
      p.pendingCallbackParameterLengthStack = [] then
    Except.error Fault.emptyBack
  else
    Except.ok { p with
      pendingCallbackStack := p.pendingCallbackStack.dropLast
      pendingCallbackParameterDataStack := p.pendingCallbackParameterDataStack.dropLast
      pendingCallbackParameterLengthStack := p.pendingCallbackParameterLengthStack.dropLast }

/-- The loop `while (pendingCallbackStack.size() > 0) { ... }` of `drive`, with
a bound on the number of iterations; `back()` on an empty vector is undefined.
Returns the controller and the invocations made, in order. -/
def drainPending (env : CallbackEnv) : Nat → Puck → Except Fault (Puck × List Invocation)
  | 0, p =>
    if p.pendingCallbackStack.length > 0 then Except.error Fault.outOfFuel
    else Except.ok (p, [])
  | fuel + 1, p =>
    if p.pendingCallbackStack.length > 0 then
      match p.pendingCallbackStack.getLast?, p.pendingCallbackParameterDataStack.getLast?,
          p.pendingCallbackParameterLengthStack.getLast? with
      | some callback, some data, some length =>
        match popPending (env callback data length p) with
        | Except.error e => Except.error e
        | Except.ok p2 =>
          match drainPending env fuel p2 with
          | Except.error e => Except.error e
          | Except.ok (q, calls) =>
            Except.ok (q, { callback := callback, data := data, length := length } :: calls)
      | _, _, _ => Except.error Fault.emptyBack
    else Except.ok (p, [])

/-- The part of `drive()` before `ble.waitForEvent()`. -/
def driveUntilWait (p : Puck) : Puck :=
  if p.state = PuckState.DISCONNECTED then startAdvertising p else p

/-- The method `drive()`: the events reported during the wait are `events`,
the drain loop runs at most `fuel` iterations. -/
def drive (env : CallbackEnv) (fuel : Nat) (events : List BleEvent) (p : Puck) :
    Except Fault DriveResult :=
  match drainPending env fuel (waitForEvent events (driveUntilWait p)) with
  | Except.error e => Except.error e
  | Except.ok (q, calls) => Except.ok { puck := q, invoked := calls, result := true }

end Puck


/-- One call of `addCharacteristic`: its four arguments. -/
structure AddCall where
  serviceUuid : UUID
  characteristicUuid : UUID
  bytes : Int
  properties : Int
  deriving DecidableEq, Repr

namespace Puck

/-- A sequence of `addCharacteristic` calls, stopping at the first that aborts. -/
def addAll : List AddCall → Puck → Except (Fault × Puck) Puck
  | [], p => Except.ok p
  | c :: rest, p =>
    match addCharacteristic c.serviceUuid c.characteristicUuid c.bytes c.properties p with
    | Except.error e => Except.error e
    | Except.ok q => addAll rest q

/-- The first service of the list with the given UUID. -/
def findService (serviceUuid : UUID) : List GattService → Option GattService
  | [] => none
  | s :: rest => if isEqualUUID s.uuid serviceUuid then some s else findService serviceUuid rest

/-- The characteristic array of the service with the given UUID, as it can be
read from the heap; `none` when there is no such service or its array pointer
does not point to a live array. -/
def serviceCharacteristics (serviceUuid : UUID) (p : Puck) : Option (List (Option Nat)) :=
  match findService serviceUuid p.services with
  | some s => s.characteristicArray p.heap
  | none => none

/-- The characteristic objects created by those calls of a sequence whose
service UUID equals `serviceUuid`, in call order; the first call of the
sequence creates object `next`. -/
def addedUnder (serviceUuid : UUID) : List AddCall → Nat → List Nat
  | [], _ => []
  | c :: rest, next =>
    if isEqualUUID c.serviceUuid serviceUuid then next :: addedUnder serviceUuid rest (next + 1)
    else addedUnder serviceUuid rest (next + 1)

/-- No two services of the list have equal UUIDs. -/
def uniqueServiceUUIDs (l : List GattService) : Prop :=
  l.Pairwise (fun a b => isEqualUUID a.uuid b.uuid = false)

/-- Whether some service of the list has the UUID. -/
def hasService (serviceUuid : UUID) (l : List GattService) : Bool :=
  l.any (fun s => isEqualUUID s.uuid serviceUuid)

/-- The state of the tables after the calls `calls` on a fresh controller, as
far as it holds whatever the calls are: one characteristic object per call,
service UUIDs pairwise different, a service for every UUID used, each service
counting the characteristics added under its UUID and pointing to a block that
is either released or holds exactly those characteristics in order. -/
def servicesReflect (calls : List AddCall) (p : Puck) : Prop :=
  p.characteristics.length = calls.length ∧
  uniqueServiceUUIDs p.services ∧
  (∀ c ∈ calls, hasService c.serviceUuid p.services = true) ∧
  (∀ s ∈ p.services,
    s.characteristicCount = (addedUnder s.uuid calls 0).length ∧
    s.characteristics < p.heap.length ∧
    (p.heap[s.characteristics]? = some Block.freed ∨
      p.heap[s.characteristics]? =
        some (Block.charArray ((addedUnder s.uuid calls 0).map some))))

/-- A sequence of `onCharacteristicWrite` registrations, each a UUID and a
callback. -/
def registerAll (regs : List (UUID × Nat)) (p : Puck) : Puck :=
  regs.foldl (fun q r => onCharacteristicWrite r.1 r.2 q) p

/-- The callbacks a sequence of registrations binds to a UUID, in registration
order. -/
def callbacksFor (uuid : UUID) (regs : List (UUID × Nat)) : List Nat :=
  (regs.filter (fun r => isEqualUUID r.1 uuid)).map (fun r => r.2)

/-- A callback body that leaves the three pending stacks as it found them: it
does not enqueue (and does not drain). -/
def keepsPending (f : Puck → Puck) : Prop :=
  ∀ q : Puck,
    (f q).pendingCallbackStack = q.pendingCallbackStack ∧
    (f q).pendingCallbackParameterDataStack = q.pendingCallbackParameterDataStack ∧
    (f q).pendingCallbackParameterLengthStack = q.pendingCallbackParameterLengthStack

/-- No two bindings of the registry have equal UUIDs. -/
def uniqueBindingUUIDs (l : List CharacteristicWriteCallbacks) : Prop :=
  l.Pairwise (fun a b => isEqualUUID a.uuid b.uuid = false)

end Puck

namespace Puck

/-- The indices at which the copy loop of `addCharacteristic` calls
`service->getCharacteristic`, with `n` iterations left, at index `i`. -/
def copyReadIndices : Nat → Nat → List Nat
  | 0, _ => []
  | n + 1, i => i :: copyReadIndices n (i + 1)

/-- The sum of the characteristic counts of all services. -/
def countSum (p : Puck) : Nat :=
  (p.services.map (fun s => s.characteristicCount)).sum

/-- How often the characteristic object `i` occurs in the array of a service,
as the array can be read from the heap; a service whose array pointer does not
point to a live array holds nothing. -/
def occurrencesIn (heap : List Block) (i : Nat) (s : GattService) : Nat :=
  match s.characteristicArray heap with
  | some cells => cells.count (some i)
  | none => 0

/-- The services whose array holds the characteristic object `i`. -/
def servicesHolding (i : Nat) (p : Puck) : List GattService :=
  p.services.filter (fun s => decide (0 < occurrencesIn p.heap i s))

/-- How often the characteristic object `i` occurs in the arrays of all
services together. -/
def occurrences (i : Nat) (p : Puck) : Nat :=
  (p.services.map (occurrencesIn p.heap i)).sum

/-- The three pending stacks have the same length. -/
def pendingAligned (p : Puck) : Prop :=
  p.pendingCallbackParameterDataStack.length = p.pendingCallbackStack.length ∧
  p.pendingCallbackParameterLengthStack.length = p.pendingCallbackStack.length

/-- A callback body that keeps the three pending stacks at one length and
removes no entry: it may enqueue, through `onDataWritten`, but not drain. -/
def keepsAligned (f : Puck → Puck) : Prop :=
  ∀ q : Puck, pendingAligned q →
    pendingAligned (f q) ∧ q.pendingCallbackStack.length ≤ (f q).pendingCallbackStack.length

/-- The controllers that sequences of calls of `init`, `addCharacteristic`,
`onCharacteristicWrite`, `onDataWritten` and `drive` lead to from the initial
controller; only calls that return count. -/
inductive Reachable (env : CallbackEnv) : Puck → Prop where
  | fresh : Reachable env Puck.fresh
  | init (minor : Nat) (p : Puck) : Reachable env p → Reachable env (Puck.init minor p)
  | addCharacteristic (su cu : UUID) (bytes props : Int) (p q : Puck) :
      Reachable env p → Puck.addCharacteristic su cu bytes props p = Except.ok q →
      Reachable env q
  | onCharacteristicWrite (uuid : UUID) (callback : Nat) (p : Puck) :
      Reachable env p → Reachable env (Puck.onCharacteristicWrite uuid callback p)
  | onDataWritten (handle data length : Nat) (p : Puck) :
      Reachable env p → Reachable env (Puck.onDataWritten handle data length p)
  | drive (fuel : Nat) (events : List BleEvent) (p : Puck) (r : DriveResult) :
      Reachable env p → Puck.drive env fuel events p = Except.ok r → Reachable env r.puck

end Puck

/-! ## Sample values -/

/-- A service UUID, the sixteen characters `puck service A  `. -/
def sampleServiceA : UUID :=
  { baseUUID := [112, 117, 99, 107, 32, 115, 101, 114, 118, 105, 99, 101, 32, 65, 32, 32],
    shortUUID := 0x7563 }

/-- Another service UUID, the sixteen characters `puck service B  `. -/
def sampleServiceB : UUID :=
  { baseUUID := [112, 117, 99, 107, 32, 115, 101, 114, 118, 105, 99, 101, 32, 66, 32, 32],
    shortUUID := 0x7563 }

/-- A characteristic UUID for every number: `puck char` followed by a byte. -/
def sampleCharacteristic (n : Nat) : UUID :=
  { baseUUID := [112, 117, 99, 107, 32, 99, 104, 97, 114, 32, 32, 32, 32, 32, 32, n],
    shortUUID := 0x7563 }

/-- The controller after `addCharacteristic(A, c1, 1, 0xA)` on a fresh one. -/
def sampleOneService : Puck :=
  { Puck.fresh with
    services := [{ uuid := sampleServiceA, characteristics := 1, characteristicCount := 1 }]
    characteristics :=
      [{ uuid := sampleCharacteristic 1, valuePtr := some 0, len := 1, properties := 0xA, handle := 0 }]
    previousCharacteristics := some 1
    heap := [Block.bytes 1, Block.charArray [some 0]] }

/-- A fresh controller on which the next `malloc` is not served. -/
def sampleExhausted : Puck :=
  { Puck.fresh with mallocOutcomes := [false] }

/-- The controller after `addCharacteristic(A, c1, 1, 0xA)` on `sampleExhausted`:
the characteristic has no value buffer. -/
def sampleNullBuffer : Puck :=
  { Puck.fresh with
    services := [{ uuid := sampleServiceA, characteristics := 0, characteristicCount := 1 }]
    characteristics :=
      [{ uuid := sampleCharacteristic 1, valuePtr := none, len := 1, properties := 0xA,
         handle := 0 }]
    previousCharacteristics := some 0
    heap := [Block.charArray [some 0]] }

/-- Three calls that alternate between two services. -/
def sampleInterleaved : List AddCall :=
  [{ serviceUuid := sampleServiceA, characteristicUuid := sampleCharacteristic 1,
     bytes := 1, properties := 0xA },
   { serviceUuid := sampleServiceB, characteristicUuid := sampleCharacteristic 2,
     bytes := 1, properties := 0xA },
   { serviceUuid := sampleServiceA, characteristicUuid := sampleCharacteristic 3,
     bytes := 1, properties := 0xA }]

/-- The controller after the first two of the calls of `sampleInterleaved`. -/
def sampleTwoServices : Puck :=
  { Puck.fresh with
    services :=
      [{ uuid := sampleServiceA, characteristics := 1, characteristicCount := 1 },
       { uuid := sampleServiceB, characteristics := 3, characteristicCount := 1 }]
    characteristics :=
      [{ uuid := sampleCharacteristic 1, valuePtr := some 0, len := 1, properties := 0xA, handle := 0 },
       { uuid := sampleCharacteristic 2, valuePtr := some 2, len := 1, properties := 0xA, handle := 0 }]
    previousCharacteristics := some 3
    heap := [Block.bytes 1, Block.charArray [some 0], Block.bytes 1, Block.charArray [some 1]] }

/-- The controller after all three calls of `sampleInterleaved`. -/
def sampleThreeCalls : Puck :=
  { Puck.fresh with
    services :=
      [{ uuid := sampleServiceB, characteristics := 3, characteristicCount := 1 },
       { uuid := sampleServiceA, characteristics := 5, characteristicCount := 2 }]
    characteristics :=
      [{ uuid := sampleCharacteristic 1, valuePtr := some 0, len := 1, properties := 0xA, handle := 0 },
       { uuid := sampleCharacteristic 2, valuePtr := some 2, len := 1, properties := 0xA, handle := 0 },
       { uuid := sampleCharacteristic 3, valuePtr := some 4, len := 1, properties := 0xA, handle := 0 }]
    previousCharacteristics := some 5
    heap := [Block.bytes 1, Block.charArray [some 0], Block.bytes 1, Block.freed,
             Block.bytes 1, Block.charArray [some 0, some 2]] }

/-- A controller with one characteristic of length 1 that the stack has
attached with value handle 14, and nothing registered or queued. -/
def sampleAttached : Puck :=
  { Puck.fresh with
    state := PuckState.CONNECTED
    services := [{ uuid := sampleServiceA, characteristics := 1, characteristicCount := 1 }]
    characteristics :=
      [{ uuid := sampleCharacteristic 1, valuePtr := some 0, len := 1, properties := 0xA, handle := 14 }]
    previousCharacteristics := some 1
    heap := [Block.bytes 1, Block.charArray [some 0]] }

/-- The controller `sampleAttached` with two callbacks bound to the UUID of its
characteristic and one entry already queued. -/
def sampleBound : Puck :=
  { sampleAttached with
    writeCallbacks := [{ uuid := sampleCharacteristic 1, callbacks := [501, 503] }]
    pendingCallbackStack := [500]
    pendingCallbackParameterDataStack := [0x20000100]
    pendingCallbackParameterLengthStack := [2] }

/-- A disconnected controller with two entries queued, the older one first. -/
def sampleQueued : Puck :=
  { sampleAttached with
    state := PuckState.DISCONNECTED
    pendingCallbackStack := [501, 502]
    pendingCallbackParameterDataStack := [0x20000100, 0x20000200]
    pendingCallbackParameterLengthStack := [1, 2] }

/-- Two callbacks registered, in this order, for the UUID of the characteristic
of `sampleAttached`. -/
def sampleRegistrations : List (UUID × Nat) :=
  [(sampleCharacteristic 1, 501), (sampleCharacteristic 1, 503)]

/-- Callbacks that only record their argument elsewhere: they leave the
controller as it is. -/
def sampleEnv : CallbackEnv := fun _ _ _ q => q

/-! ## The UUID comparator -/

theorem baseUUIDEqualFrom_iff (f g : Nat → Nat) (n i : Nat) :
    baseUUIDEqualFrom f g n i = true ↔ ∀ j, j < n → f (i + j) = g (i + j) := by
  induction n generalizing i with
  | zero => simp [baseUUIDEqualFrom]
  | succ n ih =>
    simp only [baseUUIDEqualFrom]
    by_cases h : f i = g i
    · simp only [h, bne_self_eq_false, Bool.false_eq_true, if_false, ih]
      constructor
      · intro hj j hjlt
        cases j with
        | zero => simpa using h
        | succ j =>
          have := hj j (by omega)
          rw [show i + (j + 1) = i + 1 + j by omega]
          exact this
      · intro hj j hjlt
        have := hj (j + 1) (by omega)
        rw [show i + 1 + j = i + (j + 1) by omega]
        exact this
    · have hne : (f i != g i) = true := by simpa using h
      simp only [hne, if_true, Bool.false_eq_true, false_iff]
      intro hj
      exact h (by simpa using hj 0 (by omega))

theorem isEqualUUID_iff (a b : UUID) :
    isEqualUUID a b = true ↔
      (∀ j, j < 16 → a.getBaseUUID j = b.getBaseUUID j) ∧ a.shortUUID = b.shortUUID := by
  unfold isEqualUUID
  have hb := baseUUIDEqualFrom_iff a.getBaseUUID b.getBaseUUID 16 0
  simp only [Nat.zero_add] at hb
  by_cases h1 : baseUUIDEqualFrom a.getBaseUUID b.getBaseUUID 16 0 = true
  · by_cases h2 : a.shortUUID = b.shortUUID
    · simp only [h1, h2, Bool.not_true, Bool.false_eq_true, if_false, bne_self_eq_false, true_iff, and_true]
      exact hb.mp h1
    · simp [h1, h2]
  · have h1f : baseUUIDEqualFrom a.getBaseUUID b.getBaseUUID 16 0 = false := by simpa using h1
    simp only [h1f, Bool.not_false, if_true, Bool.false_eq_true, false_iff]
    intro hc
    exact h1 (hb.mpr hc.1)

theorem isEqualUUID_refl (a : UUID) : isEqualUUID a a = true :=
  (isEqualUUID_iff a a).mpr ⟨fun _ _ => rfl, rfl⟩

theorem isEqualUUID_comm (a b : UUID) : isEqualUUID a b = isEqualUUID b a := by
  rw [Bool.eq_iff_iff, isEqualUUID_iff, isEqualUUID_iff]
  constructor
  · intro h; exact ⟨fun j hj => (h.1 j hj).symm, h.2.symm⟩
  · intro h; exact ⟨fun j hj => (h.1 j hj).symm, h.2.symm⟩

theorem isEqualUUID_congr_left {a b : UUID} (h : isEqualUUID a b = true) (c : UUID) :
    isEqualUUID a c = isEqualUUID b c := by
  rw [isEqualUUID_iff] at h
  rw [Bool.eq_iff_iff, isEqualUUID_iff, isEqualUUID_iff]
  constructor
  · intro h2; exact ⟨fun j hj => (h.1 j hj).symm.trans (h2.1 j hj), h.2.symm.trans h2.2⟩
  · intro h2; exact ⟨fun j hj => (h.1 j hj).trans (h2.1 j hj), h.2.trans h2.2⟩

theorem isEqualUUID_congr_right {a b : UUID} (h : isEqualUUID a b = true) (c : UUID) :
    isEqualUUID c a = isEqualUUID c b := by
  rw [isEqualUUID_comm c a, isEqualUUID_comm c b]
  exact isEqualUUID_congr_left h c

/-! ## The beacon payload -/

theorem minor_high_byte (m : Nat) (h : m < 65536) : (m >>> 8) % 256 = m / 256 := by
  rw [Nat.shiftRight_eq_div_pow]
  have : m / 2 ^ 8 < 256 := by omega
  omega

theorem minor_low_byte (m : Nat) : (m &&& 255) % 256 = m % 256 := by
  have h : m &&& 255 = m % 256 := Nat.and_pow_two_sub_one_eq_mod m 8
  rw [h]
  omega

/-- C1: for every 16-bit minor value `m`, the payload stored by `init m` is the
fixed template with byte 22 replaced by `m / 256` and byte 23 by `m % 256`. -/
theorem Puck.init_beaconPayload (m : Nat) (h : m < 65536) (p : Puck) :
    (Puck.init m p).beaconPayload =
      [0x00, 0x00, 0x02, 0x15,
       0xE2, 0x0A, 0x39, 0xF4, 0x73, 0xF5, 0x4B, 0xC4,
       0xA1, 0x2F, 0x17, 0xD1, 0xAD, 0x07, 0xA9, 0x61,
       0x13, 0x37, m / 256, m % 256, 0xC8] := by
  have h1 := minor_high_byte m h
  have h2 := minor_low_byte m
  simp only [Puck.init, Puck.setState, Puck.beaconPayloadTemplate]
  rw [h1, h2]
  rfl

/-! ## The service table -/

namespace Puck

theorem findServiceIndex_none (u : UUID) (l : List GattService) :
    findServiceIndex u l = none ↔ ∀ s ∈ l, isEqualUUID s.uuid u = false := by
  induction l with
  | nil => simp [findServiceIndex]
  | cons s rest ih =>
    simp only [findServiceIndex]
    by_cases h : isEqualUUID s.uuid u = true
    · simp [h]
    · have hf : isEqualUUID s.uuid u = false := by simpa using h
      simp [hf, ih]

theorem findServiceIndex_some (u : UUID) (l : List GattService) (i : Nat)
    (h : findServiceIndex u l = some i) :
    ∃ l1 s l2, l = l1 ++ s :: l2 ∧ l1.length = i ∧ isEqualUUID s.uuid u = true ∧
      ∀ x ∈ l1, isEqualUUID x.uuid u = false := by
  induction l generalizing i with
  | nil => simp [findServiceIndex] at h
  | cons s rest ih =>
    simp only [findServiceIndex] at h
    by_cases hs : isEqualUUID s.uuid u = true
    · simp only [hs, if_true, Option.some.injEq] at h
      exact ⟨[], s, rest, rfl, by simpa using h, hs, by simp⟩
    · have hf : isEqualUUID s.uuid u = false := by simpa using hs
      simp only [hf, Bool.false_eq_true, if_false, Option.map_eq_some'] at h
      obtain ⟨k, hk, hki⟩ := h
      obtain ⟨l1, t, l2, hl, hlen, ht, hall⟩ := ih k hk
      refine ⟨s :: l1, t, l2, by simp [hl], by simp [hlen, hki], ht, ?_⟩
      intro x hx
      rcases List.mem_cons.mp hx with hx | hx
      · rw [hx]; exact hf
      · exact hall x hx

theorem heapMalloc_cases (b : Block) (outcomes : List Bool) (heap : List Block) :
    ((heapMalloc b outcomes heap).1 = some heap.length ∧
        (heapMalloc b outcomes heap).2.2 = heap ++ [b]) ∨
      ((heapMalloc b outcomes heap).1 = none ∧ (heapMalloc b outcomes heap).2.2 = heap) := by
  unfold heapMalloc
  split
  · exact Or.inr ⟨rfl, rfl⟩
  · exact Or.inl ⟨rfl, rfl⟩
  · exact Or.inl ⟨rfl, rfl⟩

theorem heapMalloc_prefix (b : Block) (outcomes : List Bool) (heap : List Block) :
    heap.length ≤ (heapMalloc b outcomes heap).2.2.length ∧
      ∀ j : Nat, j < heap.length → (heapMalloc b outcomes heap).2.2[j]? = heap[j]? := by
  rcases heapMalloc_cases b outcomes heap with ⟨_, h⟩ | ⟨_, h⟩
  · rw [h]
    exact ⟨by simp, fun j hj => List.getElem?_append_left hj⟩
  · rw [h]
    exact ⟨Nat.le_refl _, fun j _ => rfl⟩

theorem heapWriteCell_ok (heap heap4 : List Block) (a i : Nat) (v : Option Nat)
    (h : heapWriteCell heap a i v = Except.ok heap4) :
    ∃ cells, heap[a]? = some (Block.charArray cells) ∧ i < cells.length ∧
      heap4 = heap.set a (Block.charArray (cells.set i v)) := by
  unfold heapWriteCell at h
  split at h
  · rename_i cells hc
    split at h
    · rename_i hi
      cases h
      exact ⟨cells, hc, hi, rfl⟩
    · cases h
  · cases h
  · cases h

theorem set_length_concat {α : Type} (l : List α) (a b : α) :
    (l ++ [a]).set l.length b = l ++ [b] := by
  induction l with
  | nil => rfl
  | cons x rest ih => simp [ih]

/-- What a call that returns has done, field by field; `heap1` is the heap
after the `malloc` of the value buffer and `value` the pointer it returned. -/
theorem addCharacteristic_ok (su cu : UUID) (bytes props : Int) (p q : Puck)
    (h : addCharacteristic su cu bytes props p = Except.ok q) :
    bytes ≤ 20 ∧
    ∃ (heap1 : List Block) (value : Option Nat),
      heap1 = (heapMalloc (Block.bytes (bytes % 65536).toNat) p.mallocOutcomes p.heap).2.2 ∧
      value = (heapMalloc (Block.bytes (bytes % 65536).toNat) p.mallocOutcomes p.heap).1 ∧
      q.characteristics = p.characteristics ++
        [{ uuid := cu, valuePtr := value, len := (bytes % 65536).toNat,
           properties := props, handle := 0 }] ∧
      q.previousCharacteristics = some heap1.length ∧
      q.writeCallbacks = p.writeCallbacks ∧
      q.pendingCallbackStack = p.pendingCallbackStack ∧
      q.pendingCallbackParameterDataStack = p.pendingCallbackParameterDataStack ∧
      q.pendingCallbackParameterLengthStack = p.pendingCallbackParameterLengthStack ∧
      q.state = p.state ∧ q.ble = p.ble ∧ q.beaconPayload = p.beaconPayload ∧
      ((findServiceIndex su p.services = none ∧
          q.services = p.services ++
            [{ uuid := su, characteristics := heap1.length, characteristicCount := 1 }] ∧
          q.heap = heap1 ++ [Block.charArray [some p.characteristics.length]]) ∨
        (∃ i s cells heap3,
          findServiceIndex su p.services = some i ∧ p.services[i]? = some s ∧
          copyCharacteristics heap1 s (s.characteristicCount + 1) 0 = Except.ok cells ∧
          heapFree p.previousCharacteristics (heap1 ++ [Block.charArray cells]) =
            Except.ok heap3 ∧
          heapWriteCell heap3 heap1.length s.characteristicCount
            (some p.characteristics.length) = Except.ok q.heap ∧
          q.services = p.services.eraseIdx i ++
            [{ uuid := su, characteristics := heap1.length,
               characteristicCount := s.characteristicCount + 1 }])) := by
  by_cases hb : bytes ≤ 20
  · refine ⟨hb, _, _, rfl, rfl, ?_⟩
    cases hfind : findServiceIndex su p.services with
    | none =>
      simp only [addCharacteristic, mbedAssert, hb, decide_True, if_true, hfind] at h
      split at h
      · cases h
      · rename_i ptr hptr
        split at h
        · cases h
        · rename_i heap4 hw
          cases h
          rcases heapMalloc_cases (Block.charArray (List.replicate 1 none))
              (heapMalloc (Block.bytes (bytes % 65536).toNat) p.mallocOutcomes p.heap).2.1
              (heapMalloc (Block.bytes (bytes % 65536).toNat) p.mallocOutcomes p.heap).2.2
            with ⟨hm1, hm2⟩ | ⟨hm1, _⟩
          · rw [hm1] at hptr
            cases hptr
            rw [hm2] at hw
            obtain ⟨cells, hc, _, h4⟩ := heapWriteCell_ok _ _ _ _ _ hw
            rw [List.getElem?_concat_length] at hc
            cases hc
            refine ⟨rfl, rfl, rfl, rfl, rfl, rfl, rfl, rfl, rfl, Or.inl ⟨rfl, rfl, ?_⟩⟩
            show heap4 = _
            rw [h4, set_length_concat]
            rfl
          · rw [hm1] at hptr
            cases hptr
    | some i =>
      simp only [addCharacteristic, mbedAssert, hb, decide_True, if_true, hfind] at h
      split at h
      · cases h
      · rename_i s hs
        split at h
        · split at h
          · cases h
          · cases h
        · rename_i ptr hptr
          split at h
          · cases h
          · rename_i cells hcopy
            split at h
            · cases h
            · rename_i heap3 hfree
              split at h
              · cases h
              · rename_i heap4 hw
                cases h
                rcases heapMalloc_cases
                    (Block.charArray (List.replicate (s.characteristicCount + 1) none))
                    (heapMalloc (Block.bytes (bytes % 65536).toNat) p.mallocOutcomes p.heap).2.1
                    (heapMalloc (Block.bytes (bytes % 65536).toNat) p.mallocOutcomes p.heap).2.2
                  with ⟨hm1, _⟩ | ⟨hm1, _⟩
                · rw [hm1] at hptr
                  cases hptr
                  refine ⟨rfl, rfl, rfl, rfl, rfl, rfl, rfl, rfl, rfl, Or.inr
                    ⟨i, s, cells, heap3, rfl, hs, hcopy, hfree, ?_, rfl⟩⟩
                  simpa using hw
                · rw [hm1] at hptr
                  cases hptr
  · simp [addCharacteristic, mbedAssert, hb] at h

/-- The service list after a call that returns: the list without the first
service that has the UUID, followed by one new service with the UUID. -/
theorem addCharacteristic_services (su cu : UUID) (bytes props : Int) (p q : Puck)
    (h : addCharacteristic su cu bytes props p = Except.ok q) :
    ∃ svc : GattService, svc.uuid = su ∧
      q.services =
        (match findServiceIndex su p.services with
          | some i => p.services.eraseIdx i
          | none => p.services) ++ [svc] := by
  obtain ⟨_, heap1, value, _, _, _, _, _, _, _, _, _, _, _, hcase⟩ :=
    addCharacteristic_ok su cu bytes props p q h
  rcases hcase with ⟨hfind, hqs, _⟩ | ⟨i, s, cells, heap3, hfind, _, _, _, _, hqs⟩
  · rw [hfind, hqs]
    exact ⟨_, rfl, rfl⟩
  · rw [hfind, hqs]
    exact ⟨_, rfl, rfl⟩

theorem hasService_eq_true (u : UUID) (l : List GattService) :
    hasService u l = true ↔ ∃ s ∈ l, isEqualUUID s.uuid u = true := by
  simp [hasService, List.any_eq_true]

end Puck

/-- The service list across a call that returns: the service UUIDs stay
pairwise different, the list gains one entry when no service had the UUID and
keeps its number of entries when one had, and the service objects with a
different UUID (UUID, array pointer and count) stay in the list in the same
order. -/
theorem Puck.addCharacteristic_services_frame (su cu : UUID) (bytes props : Int)
    (p q : Puck) (h : Puck.addCharacteristic su cu bytes props p = Except.ok q) :
    (Puck.uniqueServiceUUIDs p.services → Puck.uniqueServiceUUIDs q.services) ∧
    q.services.length =
      (if Puck.hasService su p.services then p.services.length else p.services.length + 1) ∧
    q.services.filter (fun s => !isEqualUUID s.uuid su) =
      p.services.filter (fun s => !isEqualUUID s.uuid su) := by
  obtain ⟨svc, hsvc, hq⟩ := Puck.addCharacteristic_services su cu bytes props p q h
  have hsvcm : isEqualUUID svc.uuid su = true := by rw [hsvc]; exact isEqualUUID_refl su
  cases hfind : Puck.findServiceIndex su p.services with
  | none =>
    rw [hfind] at hq
    simp only at hq
    have hall := (Puck.findServiceIndex_none su p.services).mp hfind
    have hhas : Puck.hasService su p.services = false := by
      cases hb : Puck.hasService su p.services with
      | false => rfl
      | true =>
        obtain ⟨s, hs, hsu⟩ := (Puck.hasService_eq_true su p.services).mp hb
        rw [hall s hs] at hsu
        cases hsu
    refine ⟨?_, ?_, ?_⟩
    · intro hu
      unfold Puck.uniqueServiceUUIDs at hu ⊢
      rw [hq, List.pairwise_append]
      refine ⟨hu, List.pairwise_singleton _ _, ?_⟩
      intro a ha b hb
      rw [List.mem_singleton] at hb
      rw [hb, hsvc]
      exact hall a ha
    · rw [hq, hhas]
      simp
    · rw [hq, List.filter_append]
      simp [hsvcm]
  | some i =>
    rw [hfind] at hq
    simp only at hq
    obtain ⟨l1, s, l2, hl, hlen, hs, hl1⟩ := Puck.findServiceIndex_some su p.services i hfind
    have herase : p.services.eraseIdx i = l1 ++ l2 := by
      rw [hl, ← hlen, List.eraseIdx_append_of_length_le (Nat.le_refl _)]
      simp
    rw [herase] at hq
    have hhas : Puck.hasService su p.services = true := by
      rw [Puck.hasService_eq_true]
      exact ⟨s, by rw [hl]; simp, hs⟩
    refine ⟨?_, ?_, ?_⟩
    · intro hu
      unfold Puck.uniqueServiceUUIDs at hu ⊢
      rw [hl, List.pairwise_append] at hu
      obtain ⟨hu1, hu2, hu12⟩ := hu
      rw [List.pairwise_cons] at hu2
      rw [hq, List.pairwise_append]
      refine ⟨?_, List.pairwise_singleton _ _, ?_⟩
      · rw [List.pairwise_append]
        exact ⟨hu1, hu2.2, fun a ha b hb => hu12 a ha b (List.mem_cons_of_mem _ hb)⟩
      · intro a ha b hb
        rw [List.mem_singleton] at hb
        rw [hb, hsvc]
        rcases List.mem_append.mp ha with ha | ha
        · exact hl1 a ha
        · rw [← isEqualUUID_congr_right hs a.uuid, isEqualUUID_comm]
          exact hu2.1 a ha
    · rw [hq, hhas, hl]
      simp
    · rw [hq, hl]
      simp [List.filter_append, List.filter_cons, hsvcm, hs]


/-! ## The callback registry -/

namespace Puck

theorem bindCallback_filter_other (u : UUID) (c : Nat) (v : UUID)
    (h : isEqualUUID u v = false) (bs : List CharacteristicWriteCallbacks) :
    (bindCallback u c bs).filter (fun b => isEqualUUID b.uuid v) =
      bs.filter (fun b => isEqualUUID b.uuid v) := by
  induction bs with
  | nil => simp [bindCallback, h]
  | cons b rest ih =>
    simp only [bindCallback]
    by_cases hb : isEqualUUID b.uuid u = true
    · have hbv : isEqualUUID b.uuid v = false := by
        rw [isEqualUUID_congr_left hb v]; exact h
      simp [hb, List.filter_cons, hbv]
    · have hf : isEqualUUID b.uuid u = false := by simpa using hb
      simp only [hf, Bool.false_eq_true, if_false, List.filter_cons, ih]

theorem bindCallback_filter_same (u : UUID) (c : Nat) (bs : List CharacteristicWriteCallbacks) :
    ((bindCallback u c bs).filter (fun b => isEqualUUID b.uuid u)).map (fun b => b.callbacks) =
      (match (bs.filter (fun b => isEqualUUID b.uuid u)).map (fun b => b.callbacks) with
        | [] => [[c]]
        | x :: xs => (x ++ [c]) :: xs) := by
  induction bs with
  | nil => simp [bindCallback, isEqualUUID_refl]
  | cons b rest ih =>
    simp only [bindCallback]
    by_cases hb : isEqualUUID b.uuid u = true
    · simp [hb, List.filter_cons]
    · have hf : isEqualUUID b.uuid u = false := by simpa using hb
      simp only [hf, Bool.false_eq_true, if_false, List.filter_cons]
      exact ih

theorem registerAll_writeCallbacks (regs : List (UUID × Nat)) (p : Puck) :
    (registerAll regs p).writeCallbacks =
      regs.foldl (fun bs r => bindCallback r.1 r.2 bs) p.writeCallbacks := by
  induction regs generalizing p with
  | nil => rfl
  | cons r rest ih =>
    simp only [registerAll, List.foldl_cons] at ih ⊢
    rw [ih]
    rfl

theorem registerAll_frame (regs : List (UUID × Nat)) (p : Puck) :
    registerAll regs p = { p with writeCallbacks := (registerAll regs p).writeCallbacks } := by
  induction regs generalizing p with
  | nil => rfl
  | cons r rest ih =>
    simp only [registerAll, List.foldl_cons] at ih ⊢
    rw [ih]
    rfl

theorem filter_uuid_congr {u v : UUID} (h : isEqualUUID u v = true)
    (bs : List CharacteristicWriteCallbacks) :
    bs.filter (fun b => isEqualUUID b.uuid v) = bs.filter (fun b => isEqualUUID b.uuid u) := by
  congr 1
  funext b
  exact (isEqualUUID_congr_right h b.uuid).symm

theorem callbacksFor_append (v : UUID) (regs : List (UUID × Nat)) (r : UUID × Nat) :
    callbacksFor v (regs ++ [r]) =
      callbacksFor v regs ++ (if isEqualUUID r.1 v then [r.2] else []) := by
  unfold callbacksFor
  rw [List.filter_append, List.map_append]
  by_cases h : isEqualUUID r.1 v = true
  · simp [h]
  · have hf : isEqualUUID r.1 v = false := by simpa using h
    simp [hf]

/-- The bindings that match a UUID after a sequence of registrations: a single
binding holding the callbacks registered for the UUID, or none at all. -/
theorem bindings_of_registrations (regs : List (UUID × Nat)) (v : UUID) :
    ((regs.foldl (fun bs r => bindCallback r.1 r.2 bs) []).filter
        (fun b => isEqualUUID b.uuid v)).map (fun b => b.callbacks) =
      (if regs.any (fun r => isEqualUUID r.1 v) then [callbacksFor v regs] else []) := by
  induction regs using List.reverseRecOn with
  | nil => simp
  | append_singleton regs r ih =>
    rw [List.foldl_append, List.foldl_cons, List.foldl_nil, callbacksFor_append,
      List.any_append]
    by_cases hr : isEqualUUID r.1 v = true
    · rw [filter_uuid_congr hr, bindCallback_filter_same, ← filter_uuid_congr hr, ih]
      by_cases ha : regs.any (fun r => isEqualUUID r.1 v) = true
      · simp [ha, hr]
      · have haf : regs.any (fun r => isEqualUUID r.1 v) = false := by simpa using ha
        have hnil : callbacksFor v regs = [] := by
          unfold callbacksFor
          rw [List.map_eq_nil_iff, List.filter_eq_nil_iff]
          intro x hx
          have := List.any_eq_false.mp haf x hx
          simpa using this
        simp [haf, hr, hnil]
    · have hf : isEqualUUID r.1 v = false := by simpa using hr
      rw [bindCallback_filter_other r.1 r.2 v hf, ih]
      simp only [List.any_cons, List.any_nil, hf, Bool.or_false, if_false, Bool.false_eq_true,
        List.append_nil]

theorem uniqueBindingUUIDs_of_filter (bs : List CharacteristicWriteCallbacks)
    (h : ∀ v, (bs.filter (fun b => isEqualUUID b.uuid v)).length ≤ 1) :
    uniqueBindingUUIDs bs := by
  unfold uniqueBindingUUIDs
  induction bs with
  | nil => exact List.Pairwise.nil
  | cons b rest ih =>
    rw [List.pairwise_cons]
    constructor
    · intro x hx
      have hb := h b.uuid
      simp only [List.filter_cons, isEqualUUID_refl, if_true, List.length_cons] at hb
      have hnil : rest.filter (fun y => isEqualUUID y.uuid b.uuid) = [] :=
        List.length_eq_zero.mp (by omega)
      rw [List.filter_eq_nil_iff] at hnil
      have := hnil x hx
      rw [isEqualUUID_comm]
      simpa using this
    · apply ih
      intro v
      have hv := h v
      simp only [List.filter_cons] at hv
      split at hv
      · simp only [List.length_cons] at hv; omega
      · exact hv

/-- The bindings that match a UUID after registrations on an empty registry. -/
theorem registerAll_bindings (regs : List (UUID × Nat)) (p : Puck)
    (h : p.writeCallbacks = []) (v : UUID) :
    ((registerAll regs p).writeCallbacks.filter
        (fun b => isEqualUUID b.uuid v)).map (fun b => b.callbacks) =
      (if regs.any (fun r => isEqualUUID r.1 v) then [callbacksFor v regs] else []) := by
  rw [registerAll_writeCallbacks, h]
  exact bindings_of_registrations regs v

end Puck

/-- C6: after any sequence of `onCharacteristicWrite` registrations on an empty
registry no two bindings have equal UUIDs, and the bindings whose UUID equals a
given `v` are: exactly one, holding the callbacks registered for `v` in
registration order (duplicates kept), when some registration was for `v`, and
none otherwise.  Registering `c1` then `c2` for the same UUID gives the single
binding `[c1, c2]`. -/
theorem Puck.onCharacteristicWrite_bindings (regs : List (UUID × Nat)) (p : Puck)
    (h : p.writeCallbacks = []) :
    Puck.uniqueBindingUUIDs (Puck.registerAll regs p).writeCallbacks ∧
    (∀ v : UUID,
      ((Puck.registerAll regs p).writeCallbacks.filter
          (fun b => isEqualUUID b.uuid v)).map (fun b => b.callbacks) =
        (if regs.any (fun r => isEqualUUID r.1 v) then [Puck.callbacksFor v regs] else [])) ∧
    (∀ (u : UUID) (c1 c2 : Nat),
      (Puck.onCharacteristicWrite u c2 (Puck.onCharacteristicWrite u c1 p)).writeCallbacks =
        [{ uuid := u, callbacks := [c1, c2] }]) := by
  have hall := Puck.registerAll_bindings regs p h
  refine ⟨?_, hall, ?_⟩
  · apply Puck.uniqueBindingUUIDs_of_filter
    intro v
    have hv := congrArg List.length (hall v)
    rw [List.length_map] at hv
    rw [hv]
    split <;> simp
  · intro u c1 c2
    simp [Puck.onCharacteristicWrite, h, Puck.bindCallback, isEqualUUID_refl]

/-! ## Write dispatch -/

namespace Puck

theorem pushPending_eq (data length : Nat) (cs : List Nat) (p : Puck) :
    pushPending data length cs p =
      { p with
        pendingCallbackStack := p.pendingCallbackStack ++ cs
        pendingCallbackParameterDataStack :=
          p.pendingCallbackParameterDataStack ++ List.replicate cs.length data
        pendingCallbackParameterLengthStack :=
          p.pendingCallbackParameterLengthStack ++ List.replicate cs.length length } := by
  induction cs generalizing p with
  | nil => simp [pushPending]
  | cons c rest ih =>
    simp only [pushPending]
    rw [ih]
    simp [List.replicate_succ]

theorem findWriteCallbacks_eq_find (u : UUID) (bs : List CharacteristicWriteCallbacks) :
    findWriteCallbacks u bs = bs.find? (fun b => isEqualUUID b.uuid u) := by
  induction bs with
  | nil => rfl
  | cons b rest ih =>
    simp only [findWriteCallbacks, List.find?_cons]
    cases hb : isEqualUUID b.uuid u with
    | true => simp
    | false => simpa using ih

theorem findWriteCallbacks_isSome (u : UUID) (bs : List CharacteristicWriteCallbacks) :
    (findWriteCallbacks u bs).isSome = bs.any (fun b => isEqualUUID b.uuid u) := by
  induction bs with
  | nil => rfl
  | cons b rest ih =>
    simp only [findWriteCallbacks, List.any_cons]
    cases hb : isEqualUUID b.uuid u with
    | true => simp
    | false => simpa using ih

/-- The outer loop stops at the first characteristic that has the handle and
whose UUID has a binding, and pushes the callbacks of that binding. -/
theorem onDataWrittenFrom_eq (handle data length : Nat) (p : Puck)
    (l : List GattCharacteristic) :
    onDataWrittenFrom handle data length p l =
      (match l.find? (fun x => decide (x.handle = handle) &&
          p.writeCallbacks.any (fun b => isEqualUUID b.uuid x.uuid)) with
        | some c =>
          (match p.writeCallbacks.find? (fun b => isEqualUUID b.uuid c.uuid) with
            | some b => pushPending data length b.callbacks p
            | none => p)
        | none => p) := by
  induction l with
  | nil => rfl
  | cons c rest ih =>
    simp only [onDataWrittenFrom, List.find?_cons]
    by_cases hh : c.handle = handle
    · simp only [hh, if_true, decide_True, Bool.true_and]
      cases hf : findWriteCallbacks c.uuid p.writeCallbacks with
      | none =>
        have hany : p.writeCallbacks.any (fun b => isEqualUUID b.uuid c.uuid) = false := by
          rw [← findWriteCallbacks_isSome, hf]; rfl
        simp only [hany]
        exact ih
      | some b =>
        have hany : p.writeCallbacks.any (fun b => isEqualUUID b.uuid c.uuid) = true := by
          rw [← findWriteCallbacks_isSome, hf]; rfl
        simp only [hany]
        rw [← findWriteCallbacks_eq_find, hf]
    · simp only [hh, if_false, decide_False, Bool.false_and]
      exact ih

end Puck

/-- The write that finds a characteristic and a binding. -/
theorem Puck.onDataWritten_first_match (p : Puck) (handle data length : Nat)
    (c : GattCharacteristic) (b : CharacteristicWriteCallbacks)
    (hc : p.characteristics.find? (fun x => decide (x.handle = handle) &&
        p.writeCallbacks.any (fun y => isEqualUUID y.uuid x.uuid)) = some c)
    (hb : p.writeCallbacks.find? (fun y => isEqualUUID y.uuid c.uuid) = some b) :
    Puck.onDataWritten handle data length p =
      { p with
        pendingCallbackStack := p.pendingCallbackStack ++ b.callbacks
        pendingCallbackParameterDataStack :=
          p.pendingCallbackParameterDataStack ++ List.replicate b.callbacks.length data
        pendingCallbackParameterLengthStack :=
          p.pendingCallbackParameterLengthStack ++ List.replicate b.callbacks.length length } := by
  unfold Puck.onDataWritten
  rw [Puck.onDataWrittenFrom_eq, hc]
  simp only [hb]
  exact Puck.pushPending_eq data length b.callbacks p

/-- The write that finds no characteristic with a binding. -/
theorem Puck.onDataWritten_unmatched (p : Puck) (handle data length : Nat)
    (h : (∀ c ∈ p.characteristics, c.handle ≠ handle) ∨
      (∀ c ∈ p.characteristics, c.handle = handle →
        ∀ b ∈ p.writeCallbacks, isEqualUUID b.uuid c.uuid = false)) :
    Puck.onDataWritten handle data length p = p := by
  have hnone : p.characteristics.find? (fun x => decide (x.handle = handle) &&
      p.writeCallbacks.any (fun y => isEqualUUID y.uuid x.uuid)) = none := by
    rw [List.find?_eq_none]
    intro c hc hpred
    simp only [Bool.and_eq_true, decide_eq_true_eq, List.any_eq_true] at hpred
    obtain ⟨hh, y, hy, hyu⟩ := hpred
    rcases h with h | h
    · exact h c hc hh
    · rw [h c hc hh y hy] at hyu
      cases hyu
  unfold Puck.onDataWritten
  rw [Puck.onDataWrittenFrom_eq, hnone]

/-- C7: when `c` is the first characteristic with value handle `handle` whose
UUID has a binding, and `b` is the first binding whose UUID equals the UUID of
`c`, `onDataWritten handle data length` appends the callbacks of `b`, in
order, to the callback stack, and as many copies of `data` and of `length` to
the two parameter stacks; the entries already queued stay in front and every
other field of the controller is unchanged. -/
theorem Puck.onDataWritten_enqueues (p : Puck) (handle data length : Nat)
    (c : GattCharacteristic) (b : CharacteristicWriteCallbacks)
    (hc : p.characteristics.find? (fun x => decide (x.handle = handle) &&
        p.writeCallbacks.any (fun y => isEqualUUID y.uuid x.uuid)) = some c)
    (hb : p.writeCallbacks.find? (fun y => isEqualUUID y.uuid c.uuid) = some b) :
    Puck.onDataWritten handle data length p =
      { p with
        pendingCallbackStack := p.pendingCallbackStack ++ b.callbacks
        pendingCallbackParameterDataStack :=
          p.pendingCallbackParameterDataStack ++ List.replicate b.callbacks.length data
        pendingCallbackParameterLengthStack :=
          p.pendingCallbackParameterLengthStack ++ List.replicate b.callbacks.length length } :=
  Puck.onDataWritten_first_match p handle data length c b hc hb

/-- C8: when no characteristic has value handle `handle`, or no characteristic
with that handle has a UUID equal to the UUID of a binding,
`onDataWritten handle data length` leaves the whole controller, the pending
stacks included, unchanged. -/
theorem Puck.onDataWritten_no_match (p : Puck) (handle data length : Nat)
    (h : (∀ c ∈ p.characteristics, c.handle ≠ handle) ∨
      (∀ c ∈ p.characteristics, c.handle = handle →
        ∀ b ∈ p.writeCallbacks, isEqualUUID b.uuid c.uuid = false)) :
    Puck.onDataWritten handle data length p = p :=
  Puck.onDataWritten_unmatched p handle data length h

/-! ## The drain loop -/

namespace Puck

theorem drainPending_empty (env : CallbackEnv) (fuel : Nat) (p : Puck)
    (h : p.pendingCallbackStack = []) : drainPending env fuel p = Except.ok (p, []) := by
  cases fuel <;> simp [drainPending, h]

/-- The drain loop on stacks that hold the same entries, with callbacks that
leave the stacks alone and enough iterations: every entry is invoked, last
first, and the stacks end up empty. -/
theorem drainPending_lifo (env : CallbackEnv) (entries : List Invocation) :
    ∀ (fuel : Nat) (p : Puck),
      p.pendingCallbackStack = entries.map (fun e => e.callback) →
      p.pendingCallbackParameterDataStack = entries.map (fun e => e.data) →
      p.pendingCallbackParameterLengthStack = entries.map (fun e => e.length) →
      (∀ e ∈ entries, keepsPending (env e.callback e.data e.length)) →
      entries.length ≤ fuel →
      ∃ q, drainPending env fuel p = Except.ok (q, entries.reverse) ∧
        q.pendingCallbackStack = [] ∧ q.pendingCallbackParameterDataStack = [] ∧
        q.pendingCallbackParameterLengthStack = [] := by
  induction entries using List.reverseRecOn with
  | nil =>
    intro fuel p h1 h2 h3 _ _
    exact ⟨p, drainPending_empty env fuel p h1, h1, h2, h3⟩
  | append_singleton init e ih =>
    intro fuel p h1 h2 h3 henv hfuel
    rw [List.length_append, List.length_singleton] at hfuel
    obtain ⟨f, rfl⟩ : ∃ f, fuel = f + 1 := ⟨fuel - 1, by omega⟩
    rw [List.map_append, List.map_singleton] at h1 h2 h3
    obtain ⟨k1, k2, k3⟩ := henv e (by simp) p
    have hpop : popPending (env e.callback e.data e.length p) =
        Except.ok { env e.callback e.data e.length p with
          pendingCallbackStack := init.map (fun e => e.callback)
          pendingCallbackParameterDataStack := init.map (fun e => e.data)
          pendingCallbackParameterLengthStack := init.map (fun e => e.length) } := by
      simp [popPending, k1, k2, k3, h1, h2, h3]
    obtain ⟨q, hq, hq1, hq2, hq3⟩ := ih f
      { env e.callback e.data e.length p with
          pendingCallbackStack := init.map (fun e => e.callback)
          pendingCallbackParameterDataStack := init.map (fun e => e.data)
          pendingCallbackParameterLengthStack := init.map (fun e => e.length) }
      rfl rfl rfl (fun x hx => henv x (List.mem_append_left _ hx)) (by omega)
    refine ⟨q, ?_, hq1, hq2, hq3⟩
    simp only [drainPending, h1, h2, h3, List.length_append, List.length_map,
      List.length_singleton, List.getLast?_concat]
    simp only [gt_iff_lt, Nat.zero_lt_succ, if_true, hpop, hq,
      List.reverse_append, List.reverse_singleton, List.singleton_append]

end Puck

/-- C5: let the three pending stacks hold the entries `entries` (oldest first)
when the drain loop of `drive` starts, that is when `ble.waitForEvent()`
returns (with no write event during the wait these are the entries `drive` was
called with).  If the callbacks invoked leave the pending stacks alone and the
loop may run as many iterations as there are entries, `drive` returns `true`,
has invoked exactly the entries, last first, each with its own data pointer
and length, and leaves the three stacks empty. -/
theorem Puck.drive_drains_lifo (env : CallbackEnv) (fuel : Nat) (events : List BleEvent)
    (p : Puck) (entries : List Invocation)
    (h1 : (Puck.waitForEvent events (Puck.driveUntilWait p)).pendingCallbackStack =
      entries.map (fun e => e.callback))
    (h2 : (Puck.waitForEvent events (Puck.driveUntilWait p)).pendingCallbackParameterDataStack =
      entries.map (fun e => e.data))
    (h3 : (Puck.waitForEvent events (Puck.driveUntilWait p)).pendingCallbackParameterLengthStack =
      entries.map (fun e => e.length))
    (henv : ∀ e ∈ entries, Puck.keepsPending (env e.callback e.data e.length))
    (hfuel : entries.length ≤ fuel) :
    ∃ r : DriveResult, Puck.drive env fuel events p = Except.ok r ∧
      r.invoked = entries.reverse ∧ r.result = true ∧
      r.puck.pendingCallbackStack = [] ∧ r.puck.pendingCallbackParameterDataStack = [] ∧
      r.puck.pendingCallbackParameterLengthStack = [] := by
  obtain ⟨q, hq, hq1, hq2, hq3⟩ :=
    Puck.drainPending_lifo env entries fuel _ h1 h2 h3 henv hfuel
  refine ⟨{ puck := q, invoked := entries.reverse, result := true }, ?_, rfl, rfl, hq1, hq2, hq3⟩
  simp only [Puck.drive, hq]

namespace Puck

theorem find?_map_eq_head?_filter {α β : Type} (f : α → Bool) (g : α → β) (l : List α) :
    (l.find? f).map g = ((l.filter f).map g).head? := by
  induction l with
  | nil => rfl
  | cons a rest ih =>
    simp only [List.find?_cons, List.filter_cons]
    cases f a with
    | true => simp
    | false => simp only [Bool.false_eq_true, if_false]; exact ih

theorem map_replicate_invocation (cs : List Nat) (data length : Nat) :
    (cs.map (fun cb => ({ callback := cb, data := data, length := length } : Invocation))).map
        (fun e => e.callback) = cs ∧
    (cs.map (fun cb => ({ callback := cb, data := data, length := length } : Invocation))).map
        (fun e => e.data) = List.replicate cs.length data ∧
    (cs.map (fun cb => ({ callback := cb, data := data, length := length } : Invocation))).map
        (fun e => e.length) = List.replicate cs.length length := by
  induction cs with
  | nil => simp
  | cons c rest ih =>
    obtain ⟨i1, i2, i3⟩ := ih
    simp only [List.map_cons, List.length_cons, List.replicate_succ, i1, i2, i3, and_self]

end Puck

/-- Registrations, a write and the drain loop, on a controller with an empty
registry and empty pending stacks. -/
theorem Puck.dispatch_then_drain (env : CallbackEnv) (fuel : Nat) (regs : List (UUID × Nat))
    (p : Puck) (c : GattCharacteristic) (data length : Nat)
    (hreg : p.writeCallbacks = [])
    (h1 : p.pendingCallbackStack = [])
    (h2 : p.pendingCallbackParameterDataStack = [])
    (h3 : p.pendingCallbackParameterLengthStack = [])
    (hc : c ∈ p.characteristics)
    (huniq : ∀ x ∈ p.characteristics, x.handle = c.handle → x = c)
    (henv : ∀ cb ∈ Puck.callbacksFor c.uuid regs, Puck.keepsPending (env cb data length))
    (hfuel : (Puck.callbacksFor c.uuid regs).length ≤ fuel) :
    ∃ q : Puck,
      Puck.drainPending env fuel
          (Puck.onDataWritten c.handle data length (Puck.registerAll regs p)) =
        Except.ok (q, ((Puck.callbacksFor c.uuid regs).reverse).map
          (fun cb => { callback := cb, data := data, length := length })) ∧
      q.pendingCallbackStack = [] ∧ q.pendingCallbackParameterDataStack = [] ∧
      q.pendingCallbackParameterLengthStack = [] := by
  have hframe := Puck.registerAll_frame regs p
  have hchars : (Puck.registerAll regs p).characteristics = p.characteristics := by
    rw [hframe]
  have hs1 : (Puck.registerAll regs p).pendingCallbackStack = [] := by rw [hframe]; exact h1
  have hs2 : (Puck.registerAll regs p).pendingCallbackParameterDataStack = [] := by
    rw [hframe]; exact h2
  have hs3 : (Puck.registerAll regs p).pendingCallbackParameterLengthStack = [] := by
    rw [hframe]; exact h3
  have hbind := (Puck.registerAll_bindings regs p hreg c.uuid)
  by_cases hany : regs.any (fun r => isEqualUUID r.1 c.uuid) = true
  · -- a binding exists
    rw [if_pos hany] at hbind
    have hhead := Puck.find?_map_eq_head?_filter (fun b => isEqualUUID b.uuid c.uuid)
      (fun b => b.callbacks) (Puck.registerAll regs p).writeCallbacks
    rw [hbind, List.head?_cons, Option.map_eq_some'] at hhead
    obtain ⟨b, hb, hbc⟩ := hhead
    have hbany : (Puck.registerAll regs p).writeCallbacks.any
        (fun y => isEqualUUID y.uuid c.uuid) = true := by
      rw [List.any_eq_true]
      exact ⟨b, List.mem_of_find?_eq_some hb, by simpa using List.find?_some hb⟩
    have hfind : (Puck.registerAll regs p).characteristics.find?
        (fun x => decide (x.handle = c.handle) &&
          (Puck.registerAll regs p).writeCallbacks.any (fun y => isEqualUUID y.uuid x.uuid)) =
        some c := by
      rw [hchars]
      cases hf : p.characteristics.find? (fun x => decide (x.handle = c.handle) &&
          (Puck.registerAll regs p).writeCallbacks.any (fun y => isEqualUUID y.uuid x.uuid)) with
      | none =>
        rw [List.find?_eq_none] at hf
        exact absurd (by simp [hbany]) (hf c hc)
      | some x =>
        have hx := List.find?_some hf
        simp only [Bool.and_eq_true, decide_eq_true_eq] at hx
        rw [huniq x (List.mem_of_find?_eq_some hf) hx.1]
    rw [Puck.onDataWritten_first_match _ _ data length c b hfind hb, hbc]
    obtain ⟨m1, m2, m3⟩ := Puck.map_replicate_invocation (Puck.callbacksFor c.uuid regs) data length
    have := Puck.drainPending_lifo env
      ((Puck.callbacksFor c.uuid regs).map
        (fun cb => ({ callback := cb, data := data, length := length } : Invocation))) fuel
      { Puck.registerAll regs p with
        pendingCallbackStack :=
          (Puck.registerAll regs p).pendingCallbackStack ++ Puck.callbacksFor c.uuid regs
        pendingCallbackParameterDataStack :=
          (Puck.registerAll regs p).pendingCallbackParameterDataStack ++
            List.replicate (Puck.callbacksFor c.uuid regs).length data
        pendingCallbackParameterLengthStack :=
          (Puck.registerAll regs p).pendingCallbackParameterLengthStack ++
            List.replicate (Puck.callbacksFor c.uuid regs).length length }
      (by simp only [hs1, List.nil_append, m1])
      (by simp only [hs2, List.nil_append, m2])
      (by simp only [hs3, List.nil_append, m3])
      (by
        intro e he
        obtain ⟨cb, hcb, rfl⟩ := List.mem_map.mp he
        exact henv cb hcb)
      (by simpa using hfuel)
    rw [List.map_reverse]
    exact this
  · -- no binding: the write is dropped and the loop has nothing to do
    have hanyf : regs.any (fun r => isEqualUUID r.1 c.uuid) = false := by simpa using hany
    rw [if_neg hany] at hbind
    have hnil : Puck.callbacksFor c.uuid regs = [] := by
      unfold Puck.callbacksFor
      rw [List.map_eq_nil_iff, List.filter_eq_nil_iff]
      intro x hx
      simpa using List.any_eq_false.mp hanyf x hx
    have hnone : Puck.onDataWritten c.handle data length (Puck.registerAll regs p) =
        Puck.registerAll regs p := by
      apply Puck.onDataWritten_unmatched
      right
      intro x hx hxh b hb
      rw [hchars] at hx
      rw [huniq x hx hxh]
      rw [List.map_eq_nil_iff, List.filter_eq_nil_iff] at hbind
      simpa using hbind b hb
    rw [hnone, hnil]
    exact ⟨_, Puck.drainPending_empty env fuel _ hs1, hs1, hs2, hs3⟩

/-- C4: start with an empty registry and empty pending stacks, register
callbacks in any order, and let `c` be a characteristic whose value handle no
other characteristic has.  If the callbacks registered for the UUID of `c`
leave the pending stacks alone, then `onDataWritten c.handle data length`
followed by the drain loop of `drive` invokes exactly those callbacks, each
once with `data` and `length`, in the reverse of their registration order, and
leaves the stacks empty. -/
theorem Puck.write_then_drain (env : CallbackEnv) (fuel : Nat) (regs : List (UUID × Nat))
    (p : Puck) (c : GattCharacteristic) (data length : Nat)
    (hreg : p.writeCallbacks = [])
    (h1 : p.pendingCallbackStack = [])
    (h2 : p.pendingCallbackParameterDataStack = [])
    (h3 : p.pendingCallbackParameterLengthStack = [])
    (hc : c ∈ p.characteristics)
    (huniq : ∀ x ∈ p.characteristics, x.handle = c.handle → x = c)
    (henv : ∀ cb ∈ Puck.callbacksFor c.uuid regs, Puck.keepsPending (env cb data length))
    (hfuel : (Puck.callbacksFor c.uuid regs).length ≤ fuel) :
    ∃ q : Puck,
      Puck.drainPending env fuel
          (Puck.onDataWritten c.handle data length (Puck.registerAll regs p)) =
        Except.ok (q, ((Puck.callbacksFor c.uuid regs).reverse).map
          (fun cb => { callback := cb, data := data, length := length })) ∧
      q.pendingCallbackStack = [] ∧ q.pendingCallbackParameterDataStack = [] ∧
      q.pendingCallbackParameterLengthStack = [] :=
  Puck.dispatch_then_drain env fuel regs p c data length hreg h1 h2 h3 hc huniq henv hfuel

/-! ## The state machine -/

/-- C9: up to `ble.waitForEvent()`, `drive` turns the state `DISCONNECTED` into
`ADVERTISING` (asking the stack to start advertising) and keeps every other
state; the connection handler sets the state to `CONNECTED` and the
disconnection handler sets it to `DISCONNECTED`, whatever the state was. -/
theorem Puck.state_transitions :
    (∀ p : Puck, (Puck.driveUntilWait p).state =
      (if p.state = PuckState.DISCONNECTED then PuckState.ADVERTISING else p.state)) ∧
    (∀ p : Puck, (Puck.driveUntilWait p).ble =
      (if p.state = PuckState.DISCONNECTED then p.ble ++ [BleCall.startAdvertising]
        else p.ble)) ∧
    (∀ p : Puck, (onConnection p).state = PuckState.CONNECTED) ∧
    (∀ p : Puck, (BleEvent.connection.dispatch p).state = PuckState.CONNECTED) ∧
    (∀ p : Puck, (onDisconnection p).state = PuckState.DISCONNECTED) ∧
    (∀ p : Puck, (BleEvent.disconnection.dispatch p).state = PuckState.DISCONNECTED) := by
  refine ⟨?_, ?_, fun _ => rfl, fun _ => rfl, fun _ => rfl, fun _ => rfl⟩
  · intro p
    unfold Puck.driveUntilWait
    split
    · rfl
    · rfl
  · intro p
    unfold Puck.driveUntilWait
    split
    · rfl
    · rfl

/-- C10: `stopAdvertising` is total.  In state `ADVERTISING` it issues one
`stopAdvertising` request to the stack and the state becomes `DISCONNECTED`,
nothing else changing; in any other state it changes nothing, so no request is
issued.  Calling it twice gives the same state as calling it once. -/
theorem Puck.stopAdvertising_effect (p : Puck) :
    Puck.stopAdvertising p =
      (if p.state = PuckState.ADVERTISING then
        { p with ble := p.ble ++ [BleCall.stopAdvertising], state := PuckState.DISCONNECTED }
      else p) ∧
    (Puck.stopAdvertising p).ble =
      (if p.state = PuckState.ADVERTISING then p.ble ++ [BleCall.stopAdvertising] else p.ble) ∧
    (Puck.stopAdvertising p).state =
      (if p.state = PuckState.ADVERTISING then PuckState.DISCONNECTED else p.state) ∧
    (Puck.stopAdvertising (Puck.stopAdvertising p)).state = (Puck.stopAdvertising p).state := by
  unfold Puck.stopAdvertising
  by_cases h : p.state = PuckState.ADVERTISING
  · simp [h, Puck.setState]
  · simp [h]

/-! ## The service arrays on the heap -/

namespace Puck

theorem heapFree_ok (ptr : Option Nat) (heap heap3 : List Block)
    (h : heapFree ptr heap = Except.ok heap3) :
    heap3.length = heap.length ∧
      ∀ j : Nat, heap3[j]? = heap[j]? ∨ heap3[j]? = some Block.freed := by
  unfold heapFree at h
  split at h
  · cases h
    exact ⟨rfl, fun j => Or.inl rfl⟩
  · rename_i a
    split at h
    · cases h
    · cases h
      refine ⟨by simp, fun j => ?_⟩
      by_cases hj : a = j
      · subst hj
        rename_i hb
        right
        have hlt : a < heap.length := by
          by_contra hge
          rw [List.getElem?_eq_none (by omega)] at hb
          cases hb
        rw [List.getElem?_set_self hlt]
      · left
        rw [List.getElem?_set_ne hj]
    · cases h


theorem heapFree_other (ptr : Option Nat) (heap heap3 : List Block)
    (h : heapFree ptr heap = Except.ok heap3) (a : Nat) (ha : ptr ≠ some a) :
    heap3[a]? = heap[a]? := by
  unfold heapFree at h
  split at h
  · cases h
    rfl
  · rename_i b
    have hne : b ≠ a := fun hba => ha (by rw [hba])
    split at h
    · cases h
    · cases h
      exact List.getElem?_set_ne hne
    · cases h

/-- A call that returns leaves every block that was on the heap before the call
as it was, except the block `previousCharacteristics` points to. -/
theorem addCharacteristic_heap_frame (su cu : UUID) (bytes props : Int) (p q : Puck)
    (h : addCharacteristic su cu bytes props p = Except.ok q) (a : Nat)
    (ha : a < p.heap.length) (hprev : p.previousCharacteristics ≠ some a) :
    q.heap[a]? = p.heap[a]? := by
  obtain ⟨_, heap1, value, hh1, _, _, _, _, _, _, _, _, _, _, hcase⟩ :=
    addCharacteristic_ok _ _ _ _ _ _ h
  obtain ⟨hle, hpre⟩ := heapMalloc_prefix (Block.bytes (bytes % 65536).toNat)
    p.mallocOutcomes p.heap
  rw [← hh1] at hle hpre
  rcases hcase with ⟨_, _, hqh⟩ | ⟨i, s, cells, heap3, _, _, _, hfree, hwrite, _⟩
  · rw [hqh, List.getElem?_append_left (by omega), hpre a ha]
  · obtain ⟨cells', _, _, hq4⟩ := heapWriteCell_ok _ _ _ _ _ hwrite
    rw [hq4, List.getElem?_set_ne (by omega), heapFree_other _ _ _ hfree a hprev,
      List.getElem?_append_left (by omega), hpre a ha]

theorem getCharacteristic_live (heap : List Block) (s : GattService) (arr : List (Option Nat))
    (hh : heap[s.characteristics]? = some (Block.charArray arr))
    (hl : arr.length = s.characteristicCount) (i : Nat) (hi : i < s.characteristicCount) :
    s.getCharacteristic heap i = Except.ok (arr.getD i none) := by
  unfold GattService.getCharacteristic
  have hlt : i < arr.length := by omega
  simp only [ge_iff_le, Nat.not_le.mpr hi, if_false, hh, List.getElem?_eq_getElem hlt,
    List.getD_eq_getElem?_getD, Option.getD_some]

theorem copyCharacteristics_live (heap : List Block) (s : GattService)
    (arr : List (Option Nat))
    (hh : heap[s.characteristics]? = some (Block.charArray arr))
    (hl : arr.length = s.characteristicCount) :
    ∀ (k i : Nat), i + k = s.characteristicCount →
      copyCharacteristics heap s (k + 1) i = Except.ok (arr.drop i ++ [none]) := by
  intro k
  induction k with
  | zero =>
    intro i hi
    have hge : i ≥ s.characteristicCount := by omega
    have hdrop : arr.drop i = [] := List.drop_eq_nil_of_le (by omega)
    simp [copyCharacteristics, GattService.getCharacteristic, hge, hdrop]
  | succ k ih =>
    intro i hi
    have hlt : i < s.characteristicCount := by omega
    have hlta : i < arr.length := by omega
    rw [copyCharacteristics, getCharacteristic_live heap s arr hh hl i hlt]
    simp only [ih (i + 1) (by omega)]
    simp only [List.getD_eq_getElem?_getD, List.getElem?_eq_getElem hlta, Option.getD_some]
    rw [List.drop_eq_getElem_cons hlta, List.cons_append]

theorem copyCharacteristics_freed (heap : List Block) (s : GattService)
    (hh : heap[s.characteristics]? = some Block.freed) (hc : 0 < s.characteristicCount)
    (n : Nat) : copyCharacteristics heap s (n + 1) 0 = Except.error Fault.useAfterFree := by
  simp [copyCharacteristics, GattService.getCharacteristic, Nat.not_le.mpr hc, hh]

theorem copyCharacteristics_none (heap : List Block) (s : GattService)
    (hc : s.characteristicCount = 0) :
    copyCharacteristics heap s 1 0 = Except.ok [none] := by
  simp [copyCharacteristics, GattService.getCharacteristic, hc]

theorem addAll_append (l1 l2 : List AddCall) (p : Puck) :
    addAll (l1 ++ l2) p =
      (match addAll l1 p with
        | Except.error e => Except.error e
        | Except.ok q => addAll l2 q) := by
  induction l1 generalizing p with
  | nil => rfl
  | cons c rest ih =>
    simp only [List.cons_append, addAll]
    cases addCharacteristic c.serviceUuid c.characteristicUuid c.bytes c.properties p with
    | error e => rfl
    | ok q => exact ih q

theorem addedUnder_append (u : UUID) (l1 l2 : List AddCall) (n : Nat) :
    addedUnder u (l1 ++ l2) n = addedUnder u l1 n ++ addedUnder u l2 (n + l1.length) := by
  induction l1 generalizing n with
  | nil => simp [addedUnder]
  | cons c rest ih =>
    have e : n + 1 + rest.length = n + (rest.length + 1) := by omega
    rw [List.cons_append]
    simp only [addedUnder, List.length_cons]
    rw [ih, e]
    split
    · rfl
    · rfl


theorem addedUnder_snoc (u : UUID) (calls : List AddCall) (c : AddCall) :
    addedUnder u (calls ++ [c]) 0 =
      addedUnder u calls 0 ++ (if isEqualUUID c.serviceUuid u then [calls.length] else []) := by
  rw [addedUnder_append]
  simp only [addedUnder, Nat.zero_add]

theorem addedUnder_congr {u v : UUID} (h : isEqualUUID u v = true) (calls : List AddCall)
    (n : Nat) : addedUnder u calls n = addedUnder v calls n := by
  induction calls generalizing n with
  | nil => rfl
  | cons c rest ih =>
    simp only [addedUnder, ih, isEqualUUID_congr_right h c.serviceUuid]

theorem addedUnder_eq_nil (u : UUID) (calls : List AddCall) (n : Nat)
    (h : ∀ c ∈ calls, isEqualUUID c.serviceUuid u = false) : addedUnder u calls n = [] := by
  induction calls generalizing n with
  | nil => rfl
  | cons c rest ih =>
    simp only [addedUnder, h c (List.mem_cons_self _ _), Bool.false_eq_true, if_false]
    exact ih (n + 1) (fun x hx => h x (List.mem_cons_of_mem _ hx))

theorem findServiceIndex_some_unique (u : UUID) (l : List GattService) (i : Nat)
    (hu : uniqueServiceUUIDs l) (h : findServiceIndex u l = some i) :
    ∃ s, l[i]? = some s ∧ s ∈ l ∧ isEqualUUID s.uuid u = true ∧
      (∀ x, x ∈ l.eraseIdx i ↔ (x ∈ l ∧ isEqualUUID x.uuid u = false)) := by
  obtain ⟨l1, s, l2, hl, hlen, hs, hl1⟩ := findServiceIndex_some u l i h
  have herase : l.eraseIdx i = l1 ++ l2 := by
    rw [hl, ← hlen, List.eraseIdx_append_of_length_le (Nat.le_refl _)]
    simp
  unfold uniqueServiceUUIDs at hu
  rw [hl, List.pairwise_append, List.pairwise_cons] at hu
  obtain ⟨_, ⟨hs2, _⟩, _⟩ := hu
  have hl2 : ∀ x ∈ l2, isEqualUUID x.uuid u = false := by
    intro x hx
    rw [← isEqualUUID_congr_right hs x.uuid, isEqualUUID_comm]
    exact hs2 x hx
  refine ⟨s, ?_, by rw [hl]; simp, hs, ?_⟩
  · rw [hl, ← hlen, List.getElem?_append_right (Nat.le_refl _)]
    simp
  · intro x
    rw [herase, hl]
    constructor
    · intro hx
      rcases List.mem_append.mp hx with hx | hx
      · exact ⟨by simp [hx], hl1 x hx⟩
      · exact ⟨by simp [hx], hl2 x hx⟩
    · rintro ⟨hx, hxu⟩
      simp only [List.mem_append, List.mem_cons] at hx ⊢
      rcases hx with hx | hx | hx
      · exact Or.inl hx
      · rw [hx, hs] at hxu; cases hxu
      · exact Or.inr hx


theorem servicesReflect_step (calls : List AddCall) (c : AddCall) (p q : Puck)
    (hinv : servicesReflect calls p)
    (h : addCharacteristic c.serviceUuid c.characteristicUuid c.bytes c.properties p =
      Except.ok q) :
    servicesReflect (calls ++ [c]) q := by
  obtain ⟨hlen, huniq, hhas, hsvc⟩ := hinv
  obtain ⟨_, heap1, value, hh1, _, hchars, _, _, _, _, _, _, _, _, hcase⟩ :=
    addCharacteristic_ok _ _ _ _ _ _ h
  obtain ⟨hle, hpre⟩ := heapMalloc_prefix (Block.bytes (c.bytes % 65536).toNat)
    p.mallocOutcomes p.heap
  rw [← hh1] at hle hpre
  have hqlen : q.characteristics.length = (calls ++ [c]).length := by
    rw [hchars]; simp [hlen]
  rcases hcase with ⟨hfind, hqs, hqh⟩ | ⟨i, s, cells, heap3, hfind, hsi, hcopy, hfree, hwrite, hqs⟩
  · -- a new service
    have hnone := (findServiceIndex_none c.serviceUuid p.services).mp hfind
    have hfresh : ∀ x ∈ calls, isEqualUUID x.serviceUuid c.serviceUuid = false := by
      intro x hx
      obtain ⟨s, hs, hsu⟩ := (hasService_eq_true x.serviceUuid p.services).mp (hhas x hx)
      rw [isEqualUUID_comm, ← isEqualUUID_congr_right hsu c.serviceUuid, isEqualUUID_comm]
      exact hnone s hs
    refine ⟨hqlen, ?_, ?_, ?_⟩
    · unfold uniqueServiceUUIDs at huniq ⊢
      rw [hqs, List.pairwise_append]
      refine ⟨huniq, List.pairwise_singleton _ _, ?_⟩
      intro a ha b hb
      rw [List.mem_singleton] at hb
      rw [hb]
      exact hnone a ha
    · intro x hx
      rw [hasService_eq_true, hqs]
      rcases List.mem_append.mp hx with hx | hx
      · obtain ⟨s, hs, hsu⟩ := (hasService_eq_true x.serviceUuid p.services).mp (hhas x hx)
        exact ⟨s, List.mem_append_left _ hs, hsu⟩
      · rw [List.mem_singleton] at hx
        rw [hx]
        exact ⟨_, List.mem_append_right _ (List.mem_singleton_self _), isEqualUUID_refl _⟩
    · intro s hs
      rw [hqs] at hs
      rw [addedUnder_snoc, hqh]
      rcases List.mem_append.mp hs with hs | hs
      · obtain ⟨h1, h2, h3⟩ := hsvc s hs
        have hne : isEqualUUID c.serviceUuid s.uuid = false := by
          rw [isEqualUUID_comm]; exact hnone s hs
        simp only [hne, Bool.false_eq_true, if_false, List.append_nil]
        refine ⟨h1, by simp; omega, ?_⟩
        rw [List.getElem?_append_left (by omega), hpre _ h2]
        exact h3
      · rw [List.mem_singleton] at hs
        subst hs
        simp only [isEqualUUID_refl, if_true]
        rw [addedUnder_eq_nil c.serviceUuid calls 0 hfresh]
        refine ⟨rfl, by simp, Or.inr ?_⟩
        rw [List.getElem?_concat_length]
        simp [hlen]
  · -- an existing service is rebuilt
    obtain ⟨s', hs', hsmem, hsu, herase⟩ :=
      findServiceIndex_some_unique c.serviceUuid p.services i huniq hfind
    rw [hsi] at hs'
    cases hs'
    obtain ⟨hcount, hptr, hheap⟩ := hsvc s hsmem
    -- the cells copied from the old array
    have hcells : cells = (addedUnder s.uuid calls 0).map some ++ [none] := by
      have hh1 : heap1[s.characteristics]? = p.heap[s.characteristics]? := hpre _ hptr
      rcases hheap with hfr | hlive
      · by_cases hz : s.characteristicCount = 0
        · rw [hz, copyCharacteristics_none _ _ hz] at hcopy
          cases hcopy
          have : addedUnder s.uuid calls 0 = [] := List.length_eq_zero.mp (by omega)
          rw [this]
          rfl
        · rw [copyCharacteristics_freed _ s (by rw [hh1]; exact hfr) (by omega)] at hcopy
          cases hcopy
      · have := copyCharacteristics_live _ s ((addedUnder s.uuid calls 0).map some)
          (by rw [hh1]; exact hlive) (by simp [hcount]) s.characteristicCount 0 (by omega)
        rw [this] at hcopy
        cases hcopy
        rfl
    obtain ⟨hlen3, hkeep⟩ := heapFree_ok _ _ _ hfree
    obtain ⟨cells', hc', _, hq4⟩ := heapWriteCell_ok _ _ _ _ _ hwrite
    have hlen2 : (heap1 ++ [Block.charArray cells]).length = heap1.length + 1 := by simp
    have hnew2 : (heap1 ++ [Block.charArray cells])[heap1.length]? =
        some (Block.charArray cells) := List.getElem?_concat_length _ _
    have hcc : cells' = cells := by
      rcases hkeep heap1.length with hk | hk
      · rw [hk, hnew2] at hc'
        cases hc'
        rfl
      · rw [hk] at hc'
        cases hc'
    rw [hcc] at hq4
    have hset : cells.set s.characteristicCount (some p.characteristics.length) =
        ((addedUnder s.uuid calls 0) ++ [calls.length]).map some := by
      rw [hcells, hcount, ← List.length_map (addedUnder s.uuid calls 0) some, set_length_concat,
        hlen]
      simp
    refine ⟨hqlen, ?_, ?_, ?_⟩
    · unfold uniqueServiceUUIDs at huniq ⊢
      rw [hqs, List.pairwise_append]
      refine ⟨List.Pairwise.sublist (List.eraseIdx_sublist _ _) huniq,
        List.pairwise_singleton _ _, ?_⟩
      intro a ha b hb
      rw [List.mem_singleton] at hb
      rw [hb]
      exact ((herase a).mp ha).2
    · intro x hx
      rw [hasService_eq_true, hqs]
      rcases List.mem_append.mp hx with hx | hx
      · obtain ⟨t, ht, htu⟩ := (hasService_eq_true x.serviceUuid p.services).mp (hhas x hx)
        by_cases hts : isEqualUUID t.uuid c.serviceUuid = true
        · refine ⟨_, List.mem_append_right _ (List.mem_singleton_self _), ?_⟩
          rw [← isEqualUUID_congr_left hts x.serviceUuid]
          exact htu
        · exact ⟨t, List.mem_append_left _ ((herase t).mpr ⟨ht, by simpa using hts⟩), htu⟩
      · rw [List.mem_singleton] at hx
        rw [hx]
        exact ⟨_, List.mem_append_right _ (List.mem_singleton_self _), isEqualUUID_refl _⟩
    · intro t ht
      rw [hqs] at ht
      rw [addedUnder_snoc]
      rcases List.mem_append.mp ht with ht | ht
      · obtain ⟨htmem, htu⟩ := (herase t).mp ht
        obtain ⟨h1, h2, h3⟩ := hsvc t htmem
        have hne : isEqualUUID c.serviceUuid t.uuid = false := by
          rw [isEqualUUID_comm]; exact htu
        simp only [hne, Bool.false_eq_true, if_false, List.append_nil]
        refine ⟨h1, by rw [hq4, List.length_set, hlen3, hlen2]; omega, ?_⟩
        rw [hq4, List.getElem?_set_ne (by omega)]
        rcases hkeep t.characteristics with hk | hk
        · rw [hk, List.getElem?_append_left (by omega), hpre _ h2]
          exact h3
        · exact Or.inl hk
      · rw [List.mem_singleton] at ht
        subst ht
        simp only [isEqualUUID_refl, if_true]
        rw [← addedUnder_congr hsu calls 0]
        refine ⟨by simp [hcount], by rw [hq4, List.length_set, hlen3, hlen2]; omega, Or.inr ?_⟩
        rw [hq4, List.getElem?_set_self (by rw [hlen3, hlen2]; omega), hset]


theorem servicesReflect_fresh : servicesReflect [] Puck.fresh := by
  refine ⟨rfl, List.Pairwise.nil, ?_, ?_⟩
  · intro c hc
    cases hc
  · intro s hs
    cases hs

theorem addAll_servicesReflect (calls : List AddCall) :
    ∀ p : Puck, addAll calls Puck.fresh = Except.ok p → servicesReflect calls p := by
  induction calls using List.reverseRecOn with
  | nil =>
    intro p h
    cases h
    exact servicesReflect_fresh
  | append_singleton calls c ih =>
    intro p h
    rw [addAll_append] at h
    cases hq : addAll calls Puck.fresh with
    | error e =>
      rw [hq] at h
      cases h
    | ok q =>
      rw [hq] at h
      simp only [addAll] at h
      cases hstep : addCharacteristic c.serviceUuid c.characteristicUuid c.bytes c.properties q with
      | error e =>
        rw [hstep] at h
        cases h
      | ok r =>
        rw [hstep] at h
        cases h
        exact servicesReflect_step calls c q _ (ih q hq) hstep

theorem findService_of_unique (u : UUID) (l : List GattService) (s : GattService)
    (hs : s ∈ l) (hsu : isEqualUUID s.uuid u = true) (hu : uniqueServiceUUIDs l) :
    findService u l = some s := by
  induction l with
  | nil => cases hs
  | cons t rest ih =>
    unfold uniqueServiceUUIDs at hu
    rw [List.pairwise_cons] at hu
    simp only [findService]
    rcases List.mem_cons.mp hs with hst | hst
    · rw [← hst, hsu]
      rfl
    · have hne : isEqualUUID t.uuid u = false := by
        rw [← isEqualUUID_congr_right hsu t.uuid]
        exact hu.1 s hst
      simp only [hne, Bool.false_eq_true, if_false]
      exact ih hst hu.2

/-- After any sequence of calls that all return, every service UUID used has
its service, with as many entries as characteristics were added under the
UUID; the array of the service is either a released block or holds exactly the
characteristics added under the UUID, in the order they were added. -/
theorem addAll_service_arrays (calls : List AddCall) (p : Puck)
    (h : addAll calls Puck.fresh = Except.ok p) (c : AddCall) (hc : c ∈ calls) :
    ∃ s, findService c.serviceUuid p.services = some s ∧
      s.characteristicCount = (addedUnder c.serviceUuid calls 0).length ∧
      (p.heap[s.characteristics]? = some Block.freed ∨
        serviceCharacteristics c.serviceUuid p =
          some ((addedUnder c.serviceUuid calls 0).map some)) := by
  obtain ⟨_, huniq, hhas, hsvc⟩ := addAll_servicesReflect calls p h
  obtain ⟨s, hs, hsu⟩ := (hasService_eq_true c.serviceUuid p.services).mp (hhas c hc)
  obtain ⟨h1, _, h3⟩ := hsvc s hs
  have hfind := findService_of_unique c.serviceUuid p.services s hs hsu huniq
  rw [addedUnder_congr hsu calls 0] at h1 h3
  refine ⟨s, hfind, h1, ?_⟩
  rcases h3 with h3 | h3
  · exact Or.inl h3
  · right
    simp only [serviceCharacteristics, hfind, GattService.characteristicArray, h3]
    rw [h1]
    simp

end Puck

/-! ## Interleaved additions -/

/-- The two-call example: two characteristics added to the same service on a
fresh controller.  The second call rebuilds the service built by the first,
releases the array of the first and leaves one service holding both
characteristics in order. -/
theorem Puck.addCharacteristic_twice (su c1 c2 : UUID) (props : Int) :
    ∃ p : Puck,
      Puck.addAll
          [{ serviceUuid := su, characteristicUuid := c1, bytes := 4, properties := props },
           { serviceUuid := su, characteristicUuid := c2, bytes := 4, properties := props }]
          Puck.fresh = Except.ok p ∧
      p.services = [{ uuid := su, characteristics := 3, characteristicCount := 2 }] ∧
      Puck.serviceCharacteristics su p = some [some 0, some 1] ∧
      p.characteristics.map (fun c => c.uuid) = [c1, c2] ∧
      p.heap = [Block.bytes 4, Block.freed, Block.bytes 4, Block.charArray [some 0, some 1]] := by
  refine ⟨{ Puck.fresh with
      services := [{ uuid := su, characteristics := 3, characteristicCount := 2 }]
      characteristics :=
        [{ uuid := c1, valuePtr := some 0, len := 4, properties := props, handle := 0 },
         { uuid := c2, valuePtr := some 2, len := 4, properties := props, handle := 0 }]
      previousCharacteristics := some 3
      heap := [Block.bytes 4, Block.freed, Block.bytes 4, Block.charArray [some 0, some 1]] },
    ?_, rfl, ?_, rfl, rfl⟩
  · simp [Puck.addAll, Puck.addCharacteristic, mbedAssert, heapMalloc, Puck.findServiceIndex,
      isEqualUUID_refl, Puck.copyCharacteristics, GattService.getCharacteristic, heapFree,
      heapWriteCell, Puck.fresh]
  · simp [Puck.serviceCharacteristics, Puck.findService, isEqualUUID_refl,
      GattService.characteristicArray]

/-- C2: the calls of `sampleInterleaved` all return.  The third call, for
service A, copies the array of service A and then releases the array
`previousCharacteristics` points to, which is the array of service B: service
B is left pointing to a released block, so its characteristic array is not the
list `[1]` of the objects added under B. -/
theorem Puck.addCharacteristic_interleaved :
    Puck.addAll sampleInterleaved Puck.fresh = Except.ok sampleThreeCalls ∧
    Puck.findService sampleServiceB sampleThreeCalls.services =
      some { uuid := sampleServiceB, characteristics := 3, characteristicCount := 1 } ∧
    sampleThreeCalls.heap[3]? = some Block.freed ∧
    Puck.serviceCharacteristics sampleServiceB sampleThreeCalls = none ∧
    Puck.addedUnder sampleServiceB sampleInterleaved 0 = [1] ∧
    Puck.serviceCharacteristics sampleServiceB sampleThreeCalls ≠
      some ((Puck.addedUnder sampleServiceB sampleInterleaved 0).map some) := by
  refine ⟨by rfl, by rfl, by rfl, by rfl, by rfl, ?_⟩
  have h : Puck.serviceCharacteristics sampleServiceB sampleThreeCalls = none := by rfl
  rw [h]
  exact fun hc => Option.noConfusion hc

/-- C3: the third call of `sampleInterleaved`, for service A, on the controller
left by the first two.  The call returns; the service UUIDs are pairwise
different before and after, the list keeps its two entries and the record of
service B is the same.  But service B, whose UUID differs from A, is not left
unchanged: its characteristic array held object 1 before the call and is a
released block after it. -/
theorem Puck.addCharacteristic_releases_other_service :
    Puck.addCharacteristic sampleServiceA (sampleCharacteristic 3) 1 0xA sampleTwoServices =
      Except.ok sampleThreeCalls ∧
    isEqualUUID sampleServiceB sampleServiceA = false ∧
    Puck.uniqueServiceUUIDs sampleTwoServices.services ∧
    Puck.uniqueServiceUUIDs sampleThreeCalls.services ∧
    sampleTwoServices.services.length = 2 ∧ sampleThreeCalls.services.length = 2 ∧
    Puck.findService sampleServiceB sampleTwoServices.services =
      Puck.findService sampleServiceB sampleThreeCalls.services ∧
    sampleTwoServices.previousCharacteristics = some 3 ∧
    Puck.serviceCharacteristics sampleServiceB sampleTwoServices = some [some 1] ∧
    Puck.serviceCharacteristics sampleServiceB sampleThreeCalls = none := by
  refine ⟨by rfl, by rfl, ?_, ?_, rfl, rfl, by rfl, rfl, by rfl, by rfl⟩
  · unfold Puck.uniqueServiceUUIDs
    simp only [sampleTwoServices, List.pairwise_cons, List.mem_singleton, forall_eq,
      List.not_mem_nil, false_implies, implies_true, List.Pairwise.nil, and_true]
    rfl
  · unfold Puck.uniqueServiceUUIDs
    simp only [sampleThreeCalls, List.pairwise_cons, List.mem_singleton, forall_eq,
      List.not_mem_nil, false_implies, implies_true, List.Pairwise.nil, and_true]
    rfl

/-! ## Value update and value read -/

namespace Puck

theorem findCharacteristic_eq_find (u : UUID) (l : List GattCharacteristic) :
    findCharacteristic u l = l.find? (fun c => isEqualUUID c.uuid u) := by
  induction l with
  | nil => rfl
  | cons c rest ih =>
    simp only [findCharacteristic, List.find?_cons]
    cases hc : isEqualUUID c.uuid u with
    | true => simp
    | false => simpa using ih

theorem find_characteristic_none (u : UUID) (l : List GattCharacteristic) :
    l.find? (fun c => isEqualUUID c.uuid u) = none ↔
      ∀ c ∈ l, isEqualUUID c.uuid u = false := by
  rw [List.find?_eq_none]
  constructor
  · intro h c hc
    simpa using h c hc
  · intro h c hc
    simp [h c hc]

end Puck

/-- C11: `updateCharacteristicValue uuid value length` looks for the first
characteristic whose UUID equals `uuid`.  When there is one it issues exactly
one value-update request to the stack, for the value handle of that
characteristic, and changes nothing else; when there is none, which is the
case exactly when no characteristic of the list has the UUID, it issues no
request and leaves the whole controller unchanged. -/
theorem Puck.updateCharacteristicValue_effect (uuid : UUID) (value : Nat) (length : Int)
    (p : Puck) :
    Puck.updateCharacteristicValue uuid value length p =
      (match p.characteristics.find? (fun c => isEqualUUID c.uuid uuid) with
        | some c =>
          { p with ble := p.ble ++ [BleCall.updateCharacteristicValue c.handle value length] }
        | none => p) ∧
    (p.characteristics.find? (fun c => isEqualUUID c.uuid uuid) = none ↔
      ∀ c ∈ p.characteristics, isEqualUUID c.uuid uuid = false) ∧
    ((Puck.updateCharacteristicValue uuid value length p).ble = p.ble ↔
      ∀ c ∈ p.characteristics, isEqualUUID c.uuid uuid = false) := by
  have hnone := Puck.find_characteristic_none uuid p.characteristics
  refine ⟨?_, hnone, ?_⟩
  · unfold Puck.updateCharacteristicValue
    rw [Puck.findCharacteristic_eq_find]
  · rw [← hnone]
    unfold Puck.updateCharacteristicValue
    rw [Puck.findCharacteristic_eq_find]
    cases p.characteristics.find? (fun c => isEqualUUID c.uuid uuid) with
    | none => simp
    | some c => simp

/-- C12 as amended: `getCharacteristicValue uuid` returns the value buffer
pointer of the first characteristic of the list whose UUID equals `uuid`, and
`NULL` when no characteristic has the UUID.  The pointer of the first match is
itself `NULL` when the buffer could not be allocated, so the result is `NULL`
exactly when no characteristic matches or the first match has no buffer.  The
method only reads the controller. -/
theorem Puck.getCharacteristicValue_first_match (uuid : UUID) (p : Puck) :
    Puck.getCharacteristicValue uuid p =
      (p.characteristics.find? (fun c => isEqualUUID c.uuid uuid)).bind
        (fun c => c.valuePtr) ∧
    ((∀ c ∈ p.characteristics, isEqualUUID c.uuid uuid = false) →
      Puck.getCharacteristicValue uuid p = none) ∧
    (Puck.getCharacteristicValue uuid p = none ↔
      ((∀ c ∈ p.characteristics, isEqualUUID c.uuid uuid = false) ∨
        ∃ c, p.characteristics.find? (fun c => isEqualUUID c.uuid uuid) = some c ∧
          c.valuePtr = none)) := by
  have hnone := Puck.find_characteristic_none uuid p.characteristics
  have heq : Puck.getCharacteristicValue uuid p =
      (p.characteristics.find? (fun c => isEqualUUID c.uuid uuid)).bind
        (fun c => c.valuePtr) := by
    unfold Puck.getCharacteristicValue
    rw [Puck.findCharacteristic_eq_find]
    cases p.characteristics.find? (fun c => isEqualUUID c.uuid uuid) <;> rfl
  refine ⟨heq, ?_, ?_⟩
  · intro hall
    rw [heq, hnone.mpr hall]
    rfl
  · rw [heq, ← hnone]
    cases hf : p.characteristics.find? (fun c => isEqualUUID c.uuid uuid) with
    | none => simp
    | some c => simp

/-- C12 as stated fails: on a controller whose next `malloc` is not served,
`addCharacteristic(A, c1, 1, 0xA)` reports the failed allocation and goes on;
the characteristic it adds has UUID `c1` and a `NULL` value buffer, and
`getCharacteristicValue(c1)` returns `NULL` although a characteristic with
that UUID is in the list. -/
theorem Puck.getCharacteristicValue_null_with_match :
    Puck.addCharacteristic sampleServiceA (sampleCharacteristic 1) 1 0xA sampleExhausted =
      Except.ok sampleNullBuffer ∧
    sampleNullBuffer.characteristics.any
      (fun c => isEqualUUID c.uuid (sampleCharacteristic 1)) = true ∧
    Puck.getCharacteristicValue (sampleCharacteristic 1) sampleNullBuffer = none ∧
    ¬ (Puck.getCharacteristicValue (sampleCharacteristic 1) sampleNullBuffer = none ↔
        ∀ c ∈ sampleNullBuffer.characteristics,
          isEqualUUID c.uuid (sampleCharacteristic 1) = false) := by
  have hget : Puck.getCharacteristicValue (sampleCharacteristic 1) sampleNullBuffer = none := by
    rfl
  refine ⟨by rfl, by rfl, hget, ?_⟩
  intro hiff
  have hall := hiff.mp hget
  have hc := hall { uuid := sampleCharacteristic 1, valuePtr := none, len := 1,
                    properties := 0xA, handle := 0 } (List.mem_singleton.mpr rfl)
  revert hc
  decide

/-- C17: `isEqualUUID a b` is `true` exactly when the sixteen bytes of the two
base UUIDs are pairwise equal and the two short UUIDs are equal; it is
reflexive, symmetric and transitive. -/
theorem isEqualUUID_equivalence :
    (∀ a b : UUID, isEqualUUID a b = true ↔
      ((∀ j, j < 16 → a.getBaseUUID j = b.getBaseUUID j) ∧ a.shortUUID = b.shortUUID)) ∧
    (∀ a : UUID, isEqualUUID a a = true) ∧
    (∀ a b : UUID, isEqualUUID a b = true → isEqualUUID b a = true) ∧
    (∀ a b c : UUID, isEqualUUID a b = true → isEqualUUID b c = true →
      isEqualUUID a c = true) := by
  refine ⟨isEqualUUID_iff, isEqualUUID_refl, ?_, ?_⟩
  · intro a b h
    rw [isEqualUUID_comm]
    exact h
  · intro a b c hab hbc
    rw [isEqualUUID_congr_left hab c]
    exact hbc

/-! ## The device name -/

namespace Puck

theorem hexDigitsRev_of_lt (fuel n : Nat) (hf : n < fuel) (hn : n < 65536) :
    hexDigitsRev fuel n =
      (if n < 16 then [n]
       else if n < 256 then [n % 16, n / 16]
       else if n < 4096 then [n % 16, n / 16 % 16, n / 256]
       else [n % 16, n / 16 % 16, n / 256 % 16, n / 4096]) := by
  obtain ⟨f1, rfl⟩ : ∃ f, fuel = f + 1 := ⟨fuel - 1, by omega⟩
  simp only [hexDigitsRev]
  by_cases h1 : n < 16
  · simp [h1]
  · have hlt1 : n / 16 < f1 := by omega
    obtain ⟨f2, rfl⟩ : ∃ f, f1 = f + 1 := ⟨f1 - 1, by omega⟩
    simp only [h1, if_false, hexDigitsRev]
    by_cases h2 : n < 256
    · have : n / 16 < 16 := by omega
      simp [h2, this]
    · have h2' : ¬ n / 16 < 16 := by omega
      have hlt2 : n / 16 / 16 < f2 := by omega
      obtain ⟨f3, rfl⟩ : ∃ f, f2 = f + 1 := ⟨f2 - 1, by omega⟩
      have e1 : n / 16 / 16 = n / 256 := by omega
      simp only [h2, h2', if_false, hexDigitsRev, e1]
      by_cases h3 : n < 4096
      · have : n / 256 < 16 := by omega
        simp [h3, this]
      · have h3' : ¬ n / 256 < 16 := by omega
        have hlt3 : n / 256 / 16 < f3 := by omega
        obtain ⟨f4, rfl⟩ : ∃ f, f3 = f + 1 := ⟨f3 - 1, by omega⟩
        have e2 : n / 256 / 16 = n / 4096 := by omega
        have h4 : n / 4096 < 16 := by omega
        simp only [h3, h3', if_false, hexDigitsRev, e2, h4, if_true]

theorem format04X_of_lt (n : Nat) (hn : n < 65536) :
    format04X n =
      [upperHexChar (n / 4096), upperHexChar (n / 256 % 16), upperHexChar (n / 16 % 16),
       upperHexChar (n % 16)] := by
  unfold format04X
  rw [hexDigitsRev_of_lt (n + 1) n (by omega) hn]
  have z : upperHexChar 0 = 48 := rfl
  by_cases h1 : n < 16
  · have a1 : n / 4096 = 0 := by omega
    have a2 : n / 256 % 16 = 0 := by omega
    have a3 : n / 16 % 16 = 0 := by omega
    have a4 : n % 16 = n := by omega
    simp [h1, a1, a2, a3, a4, z, List.replicate]
  · by_cases h2 : n < 256
    · have a1 : n / 4096 = 0 := by omega
      have a2 : n / 256 % 16 = 0 := by omega
      have a3 : n / 16 % 16 = n / 16 := by omega
      simp [h1, h2, a1, a2, a3, z, List.replicate]
    · by_cases h3 : n < 4096
      · have a1 : n / 4096 = 0 := by omega
        have a2 : n / 256 % 16 = n / 256 := by omega
        simp [h1, h2, h3, a1, a2, z, List.replicate]
      · simp [h1, h2, h3]

theorem upperHexChar_table (d : Nat) (hd : d < 16) :
    ([48, 49, 50, 51, 52, 53, 54, 55, 56, 57, 65, 66, 67, 68, 69, 70] : List Nat)[d]? =
      some (upperHexChar d) := by
  interval_cases d <;> rfl

end Puck

/-- C13: for every 16-bit minor value `m`, the device name set by `init m` is
the five characters `Puck ` followed by four characters and a terminating
zero at index 9; the four characters are the uppercase hexadecimal digits
(`0`..`9`, `A`..`F`) of `m / 4096`, `m / 256 % 16`, `m / 16 % 16` and `m % 16`,
which are the four base-16 digits of `m`, leading zeros included. -/
theorem Puck.init_deviceName (m : Nat) (h : m < 65536) (p : Puck) :
    BleCall.setDeviceName
        [80, 117, 99, 107, 32,
         Puck.upperHexChar (m / 4096), Puck.upperHexChar (m / 256 % 16),
         Puck.upperHexChar (m / 16 % 16), Puck.upperHexChar (m % 16), 0] ∈ (Puck.init m p).ble ∧
    Puck.deviceName m =
      [80, 117, 99, 107, 32,
       Puck.upperHexChar (m / 4096), Puck.upperHexChar (m / 256 % 16),
       Puck.upperHexChar (m / 16 % 16), Puck.upperHexChar (m % 16), 0] ∧
    (m / 4096 < 16 ∧ m / 256 % 16 < 16 ∧ m / 16 % 16 < 16 ∧ m % 16 < 16) ∧
    m / 4096 * 4096 + m / 256 % 16 * 256 + m / 16 % 16 * 16 + m % 16 = m ∧
    (∀ d, d < 16 →
      ([48, 49, 50, 51, 52, 53, 54, 55, 56, 57, 65, 66, 67, 68, 69, 70] : List Nat)[d]? =
        some (Puck.upperHexChar d)) := by
  have hname : Puck.deviceName m =
      [80, 117, 99, 107, 32,
       Puck.upperHexChar (m / 4096), Puck.upperHexChar (m / 256 % 16),
       Puck.upperHexChar (m / 16 % 16), Puck.upperHexChar (m % 16), 0] := by
    unfold Puck.deviceName
    rw [Puck.format04X_of_lt m h]
    rfl
  refine ⟨?_, hname, ⟨by omega, by omega, by omega, by omega⟩, by omega,
    Puck.upperHexChar_table⟩
  rw [← hname]
  simp [Puck.init, Puck.setState]

/-! ## The length assertion -/

namespace Puck

theorem getCharacteristic_fault (heap : List Block) (s : GattService) (i : Nat) (e : Fault)
    (h : s.getCharacteristic heap i = Except.error e) : e ≠ Fault.assertion := by
  unfold GattService.getCharacteristic at h
  split at h
  · cases h
  · split at h
    · split at h
      · cases h
      · cases h; decide
    · cases h; decide
    · cases h; decide

theorem copyCharacteristics_fault (heap : List Block) (s : GattService) (n i : Nat) (e : Fault)
    (h : copyCharacteristics heap s n i = Except.error e) : e ≠ Fault.assertion := by
  induction n generalizing i with
  | zero => simp [copyCharacteristics] at h
  | succ n ih =>
    simp only [copyCharacteristics] at h
    split at h
    · rename_i e1 h1
      cases h
      exact getCharacteristic_fault heap s i _ h1
    · split at h
      · rename_i e2 h2
        cases h
        exact ih (i + 1) h2
      · cases h

theorem heapFree_fault (ptr : Option Nat) (heap : List Block) (e : Fault)
    (h : heapFree ptr heap = Except.error e) : e ≠ Fault.assertion := by
  unfold heapFree at h
  split at h
  · cases h
  · split at h
    · cases h; decide
    · cases h
    · cases h; decide

theorem heapWriteCell_fault (heap : List Block) (a i : Nat) (v : Option Nat) (e : Fault)
    (h : heapWriteCell heap a i v = Except.error e) : e ≠ Fault.assertion := by
  unfold heapWriteCell at h
  split at h
  · split at h
    · cases h
    · cases h; decide
  · cases h; decide
  · cases h; decide

/-- A call whose length passes the assertion does not abort on the assertion. -/
theorem addCharacteristic_fault_of_le (su cu : UUID) (bytes props : Int) (p p' : Puck)
    (hb : bytes ≤ 20) (e : Fault)
    (h : addCharacteristic su cu bytes props p = Except.error (e, p')) :
    e ≠ Fault.assertion := by
  simp only [addCharacteristic, mbedAssert, hb, decide_True, if_true] at h
  split at h
  · split at h
    · cases h; decide
    · split at h
      · split at h
        · rename_i e1 h1
          cases h
          exact getCharacteristic_fault _ _ _ _ h1
        · cases h; decide
      · split at h
        · rename_i e1 h1
          cases h
          exact copyCharacteristics_fault _ _ _ _ _ h1
        · split at h
          · rename_i e1 h1
            cases h
            exact heapFree_fault _ _ _ h1
          · split at h
            · rename_i e1 h1
              cases h
              exact heapWriteCell_fault _ _ _ _ _ h1
            · cases h
  · split at h
    · cases h; decide
    · split at h
      · rename_i e1 h1
        cases h
        exact heapWriteCell_fault _ _ _ _ _ h1
      · cases h

/-- The length given to the characteristic a returning call creates. -/
theorem addCharacteristic_len (su cu : UUID) (bytes props : Int) (p q : Puck)
    (h : addCharacteristic su cu bytes props p = Except.ok q) :
    ∃ value, q.characteristics.getLast? =
      some { uuid := cu, valuePtr := value, len := (bytes % 65536).toNat,
             properties := props, handle := 0 } := by
  obtain ⟨_, _, value, _, _, hchars, _⟩ := addCharacteristic_ok su cu bytes props p q h
  exact ⟨value, by rw [hchars, List.getLast?_concat]⟩

end Puck

/-- C14: `addCharacteristic` aborts on its assertion exactly when `bytes > 20`,
whatever the controller is, and the controller at the abort is the controller
the call was given: the assertion comes before anything is appended to the
characteristic list or done to the service list. -/
theorem Puck.addCharacteristic_aborts_iff (su cu : UUID) (bytes props : Int) (p : Puck) :
    (Puck.addCharacteristic su cu bytes props p = Except.error (Fault.assertion, p) ↔
      bytes > 20) ∧
    (∀ p' : Puck,
      Puck.addCharacteristic su cu bytes props p = Except.error (Fault.assertion, p') →
        bytes > 20 ∧ p' = p ∧ p'.characteristics = p.characteristics ∧
          p'.services = p.services) := by
  have hgt : bytes > 20 →
      Puck.addCharacteristic su cu bytes props p = Except.error (Fault.assertion, p) := by
    intro hgt
    have hb : ¬ bytes ≤ 20 := by omega
    simp [Puck.addCharacteristic, mbedAssert, hb]
  have hof : ∀ p' : Puck,
      Puck.addCharacteristic su cu bytes props p = Except.error (Fault.assertion, p') →
        bytes > 20 := by
    intro p' h
    by_contra hle
    exact Puck.addCharacteristic_fault_of_le su cu bytes props p p' (by omega) _ h rfl
  refine ⟨⟨hof p, hgt⟩, ?_⟩
  intro p' h
  have hb := hof p' h
  rw [hgt hb] at h
  injection h with h
  injection h with _ h2
  exact ⟨hb, h2.symm, by rw [← h2], by rw [← h2]⟩

namespace Puck

/-- For a length from 0 to 20 the value buffer of the new characteristic has
that length. -/
theorem addCharacteristic_len_of_nonneg (su cu : UUID) (bytes props : Int) (p q : Puck)
    (h0 : 0 ≤ bytes) (h : addCharacteristic su cu bytes props p = Except.ok q) :
    ∃ c, q.characteristics.getLast? = some c ∧ (c.len : Int) = bytes ∧ c.len ≤ 20 := by
  obtain ⟨hb, _⟩ := addCharacteristic_ok su cu bytes props p q h
  obtain ⟨value, hlast⟩ := addCharacteristic_len su cu bytes props p q h
  refine ⟨_, hlast, ?_, ?_⟩
  · simp only
    omega
  · simp only
    omega

end Puck

/-- C15: the call `addCharacteristic(A, c1, -1, 0xA)` on a fresh controller.
The length -1 passes the assertion `bytes <= 20`, the call returns, and the
`uint16_t` size computed from it wraps: the new characteristic gets a value
buffer of length 65535, which is neither -1 nor at most 20. -/
theorem Puck.addCharacteristic_negative_length :
    Puck.addCharacteristic sampleServiceA (sampleCharacteristic 1) (-1) 0xA Puck.fresh =
      Except.ok
        { Puck.fresh with
          services := [{ uuid := sampleServiceA, characteristics := 1, characteristicCount := 1 }]
          characteristics :=
            [{ uuid := sampleCharacteristic 1, valuePtr := some 0, len := 65535, properties := 0xA,
               handle := 0 }]
          previousCharacteristics := some 1
          heap := [Block.bytes 65535, Block.charArray [some 0]] } ∧
    ((-1 : Int) ≤ 20) ∧ ¬ ((65535 : Int) = -1) ∧ ¬ (65535 ≤ 20) := by
  refine ⟨by rfl, by decide, by decide, by decide⟩

/-! ## The order of execution of the callbacks of one write -/

namespace Puck

theorem registerAll_eq (regs : List (UUID × Nat)) (p : Puck) :
    registerAll regs p =
      { p with writeCallbacks :=
          regs.foldl (fun bs r => bindCallback r.1 r.2 bs) p.writeCallbacks } := by
  rw [registerAll_frame, registerAll_writeCallbacks]

/-- Registrations commute with the part of `drive` before the drain loop when
no event is reported: both touch different fields. -/
theorem registerAll_comm_wait (regs : List (UUID × Nat)) (p : Puck) :
    waitForEvent [] (driveUntilWait (registerAll regs p)) =
      registerAll regs (waitForEvent [] (driveUntilWait p)) := by
  rw [registerAll_eq regs p, registerAll_eq regs (waitForEvent [] (driveUntilWait p))]
  unfold waitForEvent driveUntilWait startAdvertising setState
  by_cases h : p.state = PuckState.DISCONNECTED
  · simp [h]
  · simp [h]

theorem waitForEvent_write (handle data len : Nat) (p : Puck) :
    waitForEvent [BleEvent.dataWritten handle data len] p =
      onDataWritten handle data (len % 256) (waitForEvent [] p) := by
  rfl

end Puck

/-- C16 as amended: start with an empty registry and empty pending stacks,
register callbacks in any order, and let `c` be a characteristic whose value
handle no other characteristic has.  If the callbacks registered for the UUID
of `c` leave the pending stacks alone, a call of `drive` during whose wait the
stack reports one write to the handle of `c` returns `true` and has invoked
exactly those callbacks, each once with the data pointer and the length of the
write, in the reverse of their registration order. -/
theorem Puck.drive_write_event_reverse_order (env : CallbackEnv) (fuel : Nat)
    (regs : List (UUID × Nat)) (p : Puck) (c : GattCharacteristic) (data len : Nat)
    (hreg : p.writeCallbacks = [])
    (h1 : p.pendingCallbackStack = [])
    (h2 : p.pendingCallbackParameterDataStack = [])
    (h3 : p.pendingCallbackParameterLengthStack = [])
    (hc : c ∈ p.characteristics)
    (huniq : ∀ x ∈ p.characteristics, x.handle = c.handle → x = c)
    (henv : ∀ cb ∈ Puck.callbacksFor c.uuid regs, Puck.keepsPending (env cb data (len % 256)))
    (hfuel : (Puck.callbacksFor c.uuid regs).length ≤ fuel) :
    ∃ r : DriveResult,
      Puck.drive env fuel [BleEvent.dataWritten c.handle data len] (Puck.registerAll regs p) =
        Except.ok r ∧
      r.invoked = ((Puck.callbacksFor c.uuid regs).reverse).map
        (fun cb => { callback := cb, data := data, length := len % 256 }) ∧
      r.result = true := by
  have hstate : ∀ q : Puck,
      (Puck.waitForEvent [] (Puck.driveUntilWait q)).writeCallbacks = q.writeCallbacks ∧
      (Puck.waitForEvent [] (Puck.driveUntilWait q)).pendingCallbackStack =
        q.pendingCallbackStack ∧
      (Puck.waitForEvent [] (Puck.driveUntilWait q)).pendingCallbackParameterDataStack =
        q.pendingCallbackParameterDataStack ∧
      (Puck.waitForEvent [] (Puck.driveUntilWait q)).pendingCallbackParameterLengthStack =
        q.pendingCallbackParameterLengthStack ∧
      (Puck.waitForEvent [] (Puck.driveUntilWait q)).characteristics = q.characteristics := by
    intro q
    unfold Puck.waitForEvent Puck.driveUntilWait Puck.startAdvertising Puck.setState
    by_cases h : q.state = PuckState.DISCONNECTED
    · simp [h]
    · simp [h]
  obtain ⟨w0, w1, w2, w3, w4⟩ := hstate p
  obtain ⟨q, hq, _, _, _⟩ := Puck.dispatch_then_drain env fuel regs
    (Puck.waitForEvent [] (Puck.driveUntilWait p)) c data (len % 256)
    (by rw [w0]; exact hreg) (by rw [w1]; exact h1) (by rw [w2]; exact h2)
    (by rw [w3]; exact h3) (by rw [w4]; exact hc) (by rw [w4]; exact huniq) henv hfuel
  refine ⟨{ puck := q, invoked := _, result := true }, ?_, rfl, rfl⟩
  unfold Puck.drive
  rw [Puck.waitForEvent_write, Puck.registerAll_comm_wait, hq]

/-- C16 as stated fails: with `501` registered before `503` for the UUID of the
characteristic with value handle 14, a write to that handle followed by the
drain of `drive` runs `503` first and `501` second, which is not the
registration order. -/
theorem Puck.drive_write_event_not_registration_order :
    Puck.callbacksFor (sampleCharacteristic 1) sampleRegistrations = [501, 503] ∧
    (Puck.drive sampleEnv 2 [BleEvent.dataWritten 14 0x20000100 1]
        (Puck.registerAll sampleRegistrations sampleAttached)).map
      (fun r => r.invoked.map (fun e => e.callback)) = Except.ok [503, 501] ∧
    (Puck.drive sampleEnv 2 [BleEvent.dataWritten 14 0x20000100 1]
        (Puck.registerAll sampleRegistrations sampleAttached)).map
      (fun r => r.invoked.map (fun e => e.callback)) ≠
        Except.ok (Puck.callbacksFor (sampleCharacteristic 1) sampleRegistrations) := by
  have h : (Puck.drive sampleEnv 2 [BleEvent.dataWritten 14 0x20000100 1]
        (Puck.registerAll sampleRegistrations sampleAttached)).map
      (fun r => r.invoked.map (fun e => e.callback)) = Except.ok [503, 501] := by rfl
  refine ⟨by rfl, h, ?_⟩
  rw [h]
  have hreg : Puck.callbacksFor (sampleCharacteristic 1) sampleRegistrations = [501, 503] := by
    rfl
  rw [hreg]
  intro hc
  injection hc with hc
  revert hc
  decide

/-! ## The indices read by the copy loop -/

namespace Puck

theorem copyReadIndices_eq (n i : Nat) :
    copyReadIndices n i = (List.range n).map (fun j => i + j) := by
  induction n generalizing i with
  | zero => rfl
  | succ n ih =>
    rw [copyReadIndices, ih, List.range_succ_eq_map, List.map_cons, List.map_map]
    congr 1
    apply List.map_congr_left
    intro j _
    simp only [Function.comp, Nat.succ_eq_add_one]
    omega

/-- Whenever `addCharacteristic` finds the service, the copy loop it runs asks
the old service for the index equal to its characteristic count. -/
theorem copy_reads_count (s : GattService) :
    s.characteristicCount ∈ copyReadIndices (s.characteristicCount + 1) 0 := by
  rw [copyReadIndices_eq, List.mem_map]
  exact ⟨s.characteristicCount, List.mem_range.mpr (by omega), by omega⟩

end Puck

namespace Puck

end Puck

namespace Puck

theorem addedUnder_length_cons (u : UUID) (c : AddCall) (rest : List AddCall) (n : Nat) :
    (addedUnder u (c :: rest) n).length =
      (if isEqualUUID c.serviceUuid u then 1 else 0) + (addedUnder u rest (n + 1)).length := by
  simp only [addedUnder]
  split
  · simp [Nat.add_comm]
  · simp

theorem sum_matching_eq_one (u : UUID) (l : List GattService) (hu : uniqueServiceUUIDs l)
    (hex : ∃ s ∈ l, isEqualUUID s.uuid u = true) :
    (l.map (fun s => if isEqualUUID u s.uuid then 1 else 0)).sum = 1 := by
  induction l with
  | nil =>
    obtain ⟨s, hs, _⟩ := hex
    cases hs
  | cons t rest ih =>
    unfold uniqueServiceUUIDs at hu
    rw [List.pairwise_cons] at hu
    rw [List.map_cons, List.sum_cons]
    by_cases ht : isEqualUUID t.uuid u = true
    · have hrest : ∀ x ∈ rest, isEqualUUID u x.uuid = false := by
        intro x hx
        rw [← isEqualUUID_congr_left ht x.uuid]
        exact hu.1 x hx
      have hzero : (rest.map (fun s => if isEqualUUID u s.uuid then 1 else 0)).sum = 0 := by
        rw [List.sum_eq_zero]
        intro y hy
        obtain ⟨x, hx, rfl⟩ := List.mem_map.mp hy
        simp [hrest x hx]
      rw [hzero, isEqualUUID_comm u t.uuid, ht]
      rfl
    · have htf : isEqualUUID u t.uuid = false := by
        rw [isEqualUUID_comm]; simpa using ht
      have hex' : ∃ s ∈ rest, isEqualUUID s.uuid u = true := by
        obtain ⟨s, hs, hsu⟩ := hex
        rcases List.mem_cons.mp hs with hst | hst
        · rw [hst] at hsu; exact absurd hsu ht
        · exact ⟨s, hst, hsu⟩
      rw [ih hu.2 hex', htf]
      rfl

theorem sum_addedUnder_length (l : List GattService) (hu : uniqueServiceUUIDs l)
    (calls : List AddCall) :
    ∀ n : Nat, (∀ c ∈ calls, hasService c.serviceUuid l = true) →
      (l.map (fun s => (addedUnder s.uuid calls n).length)).sum = calls.length := by
  induction calls with
  | nil =>
    intro n _
    rw [List.sum_eq_zero]
    · rfl
    · intro y hy
      obtain ⟨x, _, rfl⟩ := List.mem_map.mp hy
      rfl
  | cons c rest ih =>
    intro n hhas
    have hfun : (fun s : GattService => (addedUnder s.uuid (c :: rest) n).length) =
        (fun s => (if isEqualUUID c.serviceUuid s.uuid then 1 else 0) +
          (addedUnder s.uuid rest (n + 1)).length) := by
      funext s
      exact addedUnder_length_cons s.uuid c rest n
    rw [hfun, List.sum_map_add, ih (n + 1) (fun x hx => hhas x (List.mem_cons_of_mem _ hx)),
      sum_matching_eq_one c.serviceUuid l hu
        ((hasService_eq_true c.serviceUuid l).mp (hhas c (List.mem_cons_self _ _)))]
    simp [Nat.add_comm]

/-- After any sequence of calls that all return, the characteristic counts of
the services add up to the length of the global characteristic list. -/
theorem addAll_countSum (calls : List AddCall) (p : Puck)
    (h : addAll calls Puck.fresh = Except.ok p) : countSum p = p.characteristics.length := by
  obtain ⟨hlen, huniq, hhas, hsvc⟩ := addAll_servicesReflect calls p h
  unfold countSum
  rw [hlen, ← sum_addedUnder_length p.services huniq calls 0 hhas]
  congr 1
  apply List.map_congr_left
  intro s hs
  exact (hsvc s hs).1

end Puck

/-- C20: after the three calls of `sampleInterleaved` the counts of the two
services add up to 3, the length of the global characteristic list, but the
arrays do not partition the list: the characteristic object 1, added under
service B, occurs in the array of no service, because the array of service B
has been released. -/
theorem Puck.addCharacteristic_interleaved_partition :
    Puck.addAll sampleInterleaved Puck.fresh = Except.ok sampleThreeCalls ∧
    sampleThreeCalls.characteristics.length = 3 ∧
    Puck.countSum sampleThreeCalls = 3 ∧
    Puck.servicesHolding 0 sampleThreeCalls =
      [{ uuid := sampleServiceA, characteristics := 5, characteristicCount := 2 }] ∧
    Puck.servicesHolding 1 sampleThreeCalls = [] ∧
    Puck.occurrences 1 sampleThreeCalls = 0 ∧
    Puck.occurrences 1 sampleTwoServices = 1 := by
  refine ⟨by rfl, by rfl, by rfl, by rfl, by rfl, by rfl, by rfl⟩

/-! ## The three pending stacks -/

namespace Puck

theorem pendingAligned_of_eq (p q : Puck)
    (h1 : q.pendingCallbackStack = p.pendingCallbackStack)
    (h2 : q.pendingCallbackParameterDataStack = p.pendingCallbackParameterDataStack)
    (h3 : q.pendingCallbackParameterLengthStack = p.pendingCallbackParameterLengthStack)
    (h : pendingAligned p) : pendingAligned q := by
  unfold pendingAligned at h ⊢
  rw [h1, h2, h3]
  exact h

theorem onDataWritten_aligned (handle data length : Nat) (p : Puck) (h : pendingAligned p) :
    pendingAligned (onDataWritten handle data length p) := by
  unfold onDataWritten
  rw [onDataWrittenFrom_eq]
  split
  · split
    · rw [pushPending_eq]
      unfold pendingAligned at h ⊢
      simp only [List.length_append, List.length_replicate]
      omega
    · exact h
  · exact h

theorem dispatch_aligned (e : BleEvent) (p : Puck) (h : pendingAligned p) :
    pendingAligned (e.dispatch p) := by
  cases e with
  | connection => exact h
  | disconnection => exact h
  | dataWritten handle data len => exact onDataWritten_aligned handle data (len % 256) p h

theorem foldl_dispatch_aligned (events : List BleEvent) (p : Puck) (h : pendingAligned p) :
    pendingAligned (events.foldl (fun q e => e.dispatch q) p) := by
  induction events generalizing p with
  | nil => exact h
  | cons e rest ih => exact ih _ (dispatch_aligned e p h)

theorem waitForEvent_aligned (events : List BleEvent) (p : Puck) (h : pendingAligned p) :
    pendingAligned (waitForEvent events p) := by
  unfold waitForEvent
  exact foldl_dispatch_aligned events _ h

theorem driveUntilWait_aligned (p : Puck) (h : pendingAligned p) :
    pendingAligned (driveUntilWait p) := by
  unfold driveUntilWait
  split
  · exact h
  · exact h

/-- From stacks of one length, with callbacks that keep them so and remove
nothing, the drain loop never reads or pops an empty stack: it either runs out
of iterations or ends, with the stacks still of one length. -/
theorem drainPending_aligned (env : CallbackEnv)
    (henv : ∀ cb data length, keepsAligned (env cb data length)) (fuel : Nat) :
    ∀ p : Puck, pendingAligned p →
      (∀ e, drainPending env fuel p = Except.error e → e = Fault.outOfFuel) ∧
      (∀ q calls, drainPending env fuel p = Except.ok (q, calls) → pendingAligned q) := by
  induction fuel with
  | zero =>
    intro p hp
    simp only [drainPending]
    constructor
    · intro e he
      split at he
      · cases he; rfl
      · cases he
    · intro q calls hq
      split at hq
      · cases hq
      · cases hq; exact hp
  | succ fuel ih =>
    intro p hp
    by_cases hpos : p.pendingCallbackStack.length > 0
    · obtain ⟨a1, a2⟩ := hp
      have n1 : p.pendingCallbackStack ≠ [] := List.ne_nil_of_length_pos hpos
      have n2 : p.pendingCallbackParameterDataStack ≠ [] :=
        List.ne_nil_of_length_pos (by omega)
      have n3 : p.pendingCallbackParameterLengthStack ≠ [] :=
        List.ne_nil_of_length_pos (by omega)
      obtain ⟨cb, hcb⟩ := Option.isSome_iff_exists.mp
        (by simpa using n1 : p.pendingCallbackStack.getLast?.isSome = true)
      obtain ⟨d, hd⟩ := Option.isSome_iff_exists.mp
        (by simpa using n2 : p.pendingCallbackParameterDataStack.getLast?.isSome = true)
      obtain ⟨l, hl⟩ := Option.isSome_iff_exists.mp
        (by simpa using n3 : p.pendingCallbackParameterLengthStack.getLast?.isSome = true)
      obtain ⟨⟨b1, b2⟩, hge⟩ := henv cb d l p ⟨a1, a2⟩
      have m1 : (env cb d l p).pendingCallbackStack ≠ [] :=
        List.ne_nil_of_length_pos (by omega)
      have m2 : (env cb d l p).pendingCallbackParameterDataStack ≠ [] :=
        List.ne_nil_of_length_pos (by omega)
      have m3 : (env cb d l p).pendingCallbackParameterLengthStack ≠ [] :=
        List.ne_nil_of_length_pos (by omega)
      have hpop : popPending (env cb d l p) = Except.ok
          { env cb d l p with
            pendingCallbackStack := (env cb d l p).pendingCallbackStack.dropLast
            pendingCallbackParameterDataStack :=
              (env cb d l p).pendingCallbackParameterDataStack.dropLast
            pendingCallbackParameterLengthStack :=
              (env cb d l p).pendingCallbackParameterLengthStack.dropLast } := by
        simp [popPending, m1, m2, m3]
      have hal : pendingAligned
          { env cb d l p with
            pendingCallbackStack := (env cb d l p).pendingCallbackStack.dropLast
            pendingCallbackParameterDataStack :=
              (env cb d l p).pendingCallbackParameterDataStack.dropLast
            pendingCallbackParameterLengthStack :=
              (env cb d l p).pendingCallbackParameterLengthStack.dropLast } := by
        unfold pendingAligned
        simp only [List.length_dropLast]
        omega
      obtain ⟨ih1, ih2⟩ := ih _ hal
      simp only [drainPending, hpos, if_true, hcb, hd, hl, hpop]
      constructor
      · intro e he
        split at he
        · rename_i e1 h1
          cases he
          exact ih1 _ h1
        · cases he
      · intro q calls hq
        split at hq
        · cases hq
        · rename_i q1 calls1 h1
          cases hq
          exact ih2 _ _ h1
    · simp only [drainPending, hpos, if_false]
      constructor
      · intro e he
        cases he
      · intro q calls hq
        cases hq
        exact hp

theorem pendingAligned_fresh : pendingAligned Puck.fresh :=
  ⟨rfl, rfl⟩

theorem reachable_aligned (env : CallbackEnv)
    (henv : ∀ cb data length, keepsAligned (env cb data length)) (p : Puck)
    (hr : Reachable env p) : pendingAligned p := by
  induction hr with
  | fresh => exact pendingAligned_fresh
  | init minor p _ ih => exact ih
  | addCharacteristic su cu bytes props p q _ hq ih =>
    obtain ⟨_, _, _, _, _, _, _, _, s1, s2, s3, _⟩ :=
      addCharacteristic_ok su cu bytes props p q hq
    exact pendingAligned_of_eq p q s1 s2 s3 ih
  | onCharacteristicWrite uuid callback p _ ih => exact ih
  | onDataWritten handle data length p _ ih => exact onDataWritten_aligned handle data length p ih
  | drive fuel events p r _ hd ih =>
    have hw := waitForEvent_aligned events _ (driveUntilWait_aligned p ih)
    unfold Puck.drive at hd
    split at hd
    · cases hd
    · rename_i q calls hq
      cases hd
      exact (drainPending_aligned env henv fuel _ hw).2 q calls hq

end Puck

/-- C18: let the callbacks keep the three pending stacks at one length and
remove no entry.  Then in every controller reachable from the initial one by
calls of `init`, `addCharacteristic`, `onCharacteristicWrite`, `onDataWritten`
and `drive` the three stacks have the same length, and a call of `drive` on it
never reads `back()` of, or pops, an empty stack. -/
theorem Puck.reachable_pending_aligned (env : CallbackEnv)
    (henv : ∀ cb data length, Puck.keepsAligned (env cb data length)) (p : Puck)
    (hr : Puck.Reachable env p) :
    (p.pendingCallbackParameterDataStack.length = p.pendingCallbackStack.length ∧
      p.pendingCallbackParameterLengthStack.length = p.pendingCallbackStack.length) ∧
    ∀ (fuel : Nat) (events : List BleEvent),
      Puck.drive env fuel events p ≠ Except.error Fault.emptyBack := by
  have hal := Puck.reachable_aligned env henv p hr
  refine ⟨hal, ?_⟩
  intro fuel events hd
  have hw := Puck.waitForEvent_aligned events _ (Puck.driveUntilWait_aligned p hal)
  unfold Puck.drive at hd
  split at hd
  · rename_i e he
    cases hd
    have := (Puck.drainPending_aligned env henv fuel _ hw).1 _ he
    cases this
  · cases hd

/-! ## The theorems at sample values -/

/-- The payload for minor `0x12AB`: bytes 22 and 23 are `0x12` and `0xAB`. -/
theorem Puck.init_beaconPayload_witness :
    (0x12AB : Nat) < 65536 ∧
    (Puck.init 0x12AB Puck.fresh).beaconPayload =
      [0x00, 0x00, 0x02, 0x15,
       0xE2, 0x0A, 0x39, 0xF4, 0x73, 0xF5, 0x4B, 0xC4,
       0xA1, 0x2F, 0x17, 0xD1, 0xAD, 0x07, 0xA9, 0x61,
       0x13, 0x37, 0x12, 0xAB, 0xC8] :=
  ⟨by decide, Puck.init_beaconPayload 0x12AB (by decide) Puck.fresh⟩

/-- One callback bound to the characteristic with value handle 14 and a write
of one byte to it, the stack's buffer at `0x20000100` holding `0x07`: the loop
invokes the callback once, with that pointer and length 1. -/
theorem Puck.write_then_drain_witness :
    sampleAttached.writeCallbacks = [] ∧
    sampleAttached.pendingCallbackStack = [] ∧
    sampleAttached.pendingCallbackParameterDataStack = [] ∧
    sampleAttached.pendingCallbackParameterLengthStack = [] ∧
    ∃ q : Puck,
      Puck.drainPending sampleEnv 1
          (Puck.onDataWritten 14 0x20000100 1
            (Puck.registerAll [(sampleCharacteristic 1, 501)] sampleAttached)) =
        Except.ok (q, [{ callback := 501, data := 0x20000100, length := 1 }]) ∧
      q.pendingCallbackStack = [] ∧ q.pendingCallbackParameterDataStack = [] ∧
      q.pendingCallbackParameterLengthStack = [] :=
  ⟨rfl, rfl, rfl, rfl,
    Puck.write_then_drain sampleEnv 1 [(sampleCharacteristic 1, 501)] sampleAttached
      { uuid := sampleCharacteristic 1, valuePtr := some 0, len := 1, properties := 0xA, handle := 14 }
      0x20000100 1 rfl rfl rfl rfl (by decide)
      (by
        intro x hx _
        exact List.mem_singleton.mp hx)
      (fun _ _ _ => ⟨rfl, rfl, rfl⟩) (by decide)⟩

/-- A disconnected controller with two queued entries and no event during the
wait: `drive` invokes the newer entry first, then the older one. -/
theorem Puck.drive_drains_lifo_witness :
    sampleQueued.state = PuckState.DISCONNECTED ∧
    sampleQueued.pendingCallbackStack = [501, 502] ∧
    sampleQueued.pendingCallbackParameterDataStack = [0x20000100, 0x20000200] ∧
    sampleQueued.pendingCallbackParameterLengthStack = [1, 2] ∧
    ∃ r : DriveResult, Puck.drive sampleEnv 2 [] sampleQueued = Except.ok r ∧
      r.invoked = [{ callback := 502, data := 0x20000200, length := 2 },
                   { callback := 501, data := 0x20000100, length := 1 }] ∧
      r.result = true ∧
      r.puck.pendingCallbackStack = [] ∧ r.puck.pendingCallbackParameterDataStack = [] ∧
      r.puck.pendingCallbackParameterLengthStack = [] :=
  ⟨rfl, rfl, rfl, rfl,
    Puck.drive_drains_lifo sampleEnv 2 [] sampleQueued
      [{ callback := 501, data := 0x20000100, length := 1 },
       { callback := 502, data := 0x20000200, length := 2 }]
      rfl rfl rfl (fun _ _ _ => ⟨rfl, rfl, rfl⟩) (by decide)⟩

/-- Four registrations for two UUIDs, one callback registered twice: two
bindings, each with its callbacks in registration order. -/
theorem Puck.onCharacteristicWrite_bindings_witness :
    Puck.fresh.writeCallbacks = [] ∧
    (Puck.registerAll
        [(sampleCharacteristic 1, 501), (sampleCharacteristic 2, 502),
         (sampleCharacteristic 1, 503), (sampleCharacteristic 1, 501)] Puck.fresh).writeCallbacks =
      [{ uuid := sampleCharacteristic 1, callbacks := [501, 503, 501] },
       { uuid := sampleCharacteristic 2, callbacks := [502] }] ∧
    Puck.callbacksFor (sampleCharacteristic 1)
        [(sampleCharacteristic 1, 501), (sampleCharacteristic 2, 502),
         (sampleCharacteristic 1, 503), (sampleCharacteristic 1, 501)] = [501, 503, 501] ∧
    Puck.uniqueBindingUUIDs
      (Puck.registerAll
        [(sampleCharacteristic 1, 501), (sampleCharacteristic 2, 502),
         (sampleCharacteristic 1, 503), (sampleCharacteristic 1, 501)] Puck.fresh).writeCallbacks :=
  ⟨rfl, by rfl, by rfl,
    (Puck.onCharacteristicWrite_bindings
      [(sampleCharacteristic 1, 501), (sampleCharacteristic 2, 502),
       (sampleCharacteristic 1, 503), (sampleCharacteristic 1, 501)] Puck.fresh rfl).1⟩

/-- A write to handle 14 with two callbacks bound and one entry already queued:
the two callbacks are queued behind the old entry, in registration order. -/
theorem Puck.onDataWritten_enqueues_witness :
    sampleBound.characteristics.find? (fun x => decide (x.handle = 14) &&
        sampleBound.writeCallbacks.any (fun y => isEqualUUID y.uuid x.uuid)) =
      some { uuid := sampleCharacteristic 1, valuePtr := some 0, len := 1, properties := 0xA,
             handle := 14 } ∧
    sampleBound.writeCallbacks.find? (fun y => isEqualUUID y.uuid (sampleCharacteristic 1)) =
      some { uuid := sampleCharacteristic 1, callbacks := [501, 503] } ∧
    Puck.onDataWritten 14 0x20000200 1 sampleBound =
      { sampleBound with
        pendingCallbackStack := [500, 501, 503]
        pendingCallbackParameterDataStack := [0x20000100, 0x20000200, 0x20000200]
        pendingCallbackParameterLengthStack := [2, 1, 1] } :=
  ⟨by rfl, by rfl,
    Puck.onDataWritten_enqueues sampleBound 14 0x20000200 1
      { uuid := sampleCharacteristic 1, valuePtr := some 0, len := 1, properties := 0xA, handle := 14 }
      { uuid := sampleCharacteristic 1, callbacks := [501, 503] } (by rfl) (by rfl)⟩

/-- A write to a handle no characteristic has, and a write to a characteristic
whose UUID has no binding: both are dropped. -/
theorem Puck.onDataWritten_no_match_witness :
    ((∀ c ∈ sampleBound.characteristics, c.handle ≠ 15) ∧
      Puck.onDataWritten 15 0x20000200 1 sampleBound = sampleBound) ∧
    ((∀ c ∈ sampleAttached.characteristics, c.handle = 14 →
        ∀ b ∈ sampleAttached.writeCallbacks, isEqualUUID b.uuid c.uuid = false) ∧
      Puck.onDataWritten 14 0x20000200 1 sampleAttached = sampleAttached) :=
  ⟨⟨by decide, Puck.onDataWritten_no_match sampleBound 15 0x20000200 1 (Or.inl (by decide))⟩,
    ⟨by decide,
      Puck.onDataWritten_no_match sampleAttached 14 0x20000200 1 (Or.inr (by decide))⟩⟩

/-- The name for minor `0x0A2F`: `Puck 0A2F` and a terminating zero. -/
theorem Puck.init_deviceName_witness :
    (0x0A2F : Nat) < 65536 ∧
    BleCall.setDeviceName [80, 117, 99, 107, 32, 48, 65, 50, 70, 0] ∈
      (Puck.init 0x0A2F Puck.fresh).ble :=
  ⟨by decide, (Puck.init_deviceName 0x0A2F (by decide) Puck.fresh).1⟩

/-- Two callbacks bound to the characteristic with value handle 14 and one
write of one byte to it during the wait: `drive` invokes the callback
registered last first. -/
theorem Puck.drive_write_event_reverse_order_witness :
    sampleAttached.writeCallbacks = [] ∧
    sampleAttached.pendingCallbackStack = [] ∧
    ∃ r : DriveResult,
      Puck.drive sampleEnv 2 [BleEvent.dataWritten 14 0x20000100 1]
          (Puck.registerAll sampleRegistrations sampleAttached) = Except.ok r ∧
      r.invoked = [{ callback := 503, data := 0x20000100, length := 1 },
                   { callback := 501, data := 0x20000100, length := 1 }] ∧
      r.result = true :=
  ⟨rfl, rfl,
    Puck.drive_write_event_reverse_order sampleEnv 2 sampleRegistrations sampleAttached
      { uuid := sampleCharacteristic 1, valuePtr := some 0, len := 1, properties := 0xA, handle := 14 }
      0x20000100 1 rfl rfl rfl rfl (by decide)
      (by
        intro x hx _
        exact List.mem_singleton.mp hx)
      (fun _ _ _ => ⟨rfl, rfl, rfl⟩) (by decide)⟩

/-- Two UUIDs whose lists differ after the sixteenth byte compare equal, in both
directions, and chain with a third. -/
theorem isEqualUUID_equivalence_witness :
    isEqualUUID sampleServiceA
      { baseUUID := sampleServiceA.baseUUID ++ [7], shortUUID := 0x7563 } = true ∧
    isEqualUUID { baseUUID := sampleServiceA.baseUUID ++ [7], shortUUID := 0x7563 }
      sampleServiceA = true ∧
    isEqualUUID sampleServiceA
      { baseUUID := sampleServiceA.baseUUID ++ [8, 9], shortUUID := 0x7563 } = true :=
  ⟨by rfl,
    isEqualUUID_equivalence.2.2.1 sampleServiceA
      { baseUUID := sampleServiceA.baseUUID ++ [7], shortUUID := 0x7563 } (by rfl),
    isEqualUUID_equivalence.2.2.2 sampleServiceA
      { baseUUID := sampleServiceA.baseUUID ++ [7], shortUUID := 0x7563 }
      { baseUUID := sampleServiceA.baseUUID ++ [8, 9], shortUUID := 0x7563 } (by rfl) (by rfl)⟩

/-- A characteristic added, a callback bound to it and a write to handle 0,
which the characteristic has until the stack attaches it: one entry on each
stack, and `drive` does not read an empty stack. -/
theorem Puck.reachable_pending_aligned_witness :
    (∀ cb data length, Puck.keepsAligned (sampleEnv cb data length)) ∧
    Puck.Reachable sampleEnv
      (Puck.onDataWritten 0 0x20000100 1
        (Puck.onCharacteristicWrite (sampleCharacteristic 1) 501 sampleOneService)) ∧
    (Puck.onDataWritten 0 0x20000100 1
        (Puck.onCharacteristicWrite (sampleCharacteristic 1) 501
          sampleOneService)).pendingCallbackStack = [501] ∧
    ((Puck.onDataWritten 0 0x20000100 1
        (Puck.onCharacteristicWrite (sampleCharacteristic 1) 501
          sampleOneService)).pendingCallbackParameterDataStack.length =
      (Puck.onDataWritten 0 0x20000100 1
        (Puck.onCharacteristicWrite (sampleCharacteristic 1) 501
          sampleOneService)).pendingCallbackStack.length ∧
     (Puck.onDataWritten 0 0x20000100 1
        (Puck.onCharacteristicWrite (sampleCharacteristic 1) 501
          sampleOneService)).pendingCallbackParameterLengthStack.length =
      (Puck.onDataWritten 0 0x20000100 1
        (Puck.onCharacteristicWrite (sampleCharacteristic 1) 501
          sampleOneService)).pendingCallbackStack.length) :=
  ⟨fun _ _ _ _ hq => ⟨hq, Nat.le_refl _⟩,
    Puck.Reachable.onDataWritten 0 0x20000100 1 _
      (Puck.Reachable.onCharacteristicWrite (sampleCharacteristic 1) 501 _
        (Puck.Reachable.addCharacteristic sampleServiceA (sampleCharacteristic 1) 1 0xA
          Puck.fresh sampleOneService Puck.Reachable.fresh (by rfl))),
    by rfl,
    (Puck.reachable_pending_aligned sampleEnv (fun _ _ _ _ hq => ⟨hq, Nat.le_refl _⟩) _
      (Puck.Reachable.onDataWritten 0 0x20000100 1 _
        (Puck.Reachable.onCharacteristicWrite (sampleCharacteristic 1) 501 _
          (Puck.Reachable.addCharacteristic sampleServiceA (sampleCharacteristic 1) 1 0xA
            Puck.fresh sampleOneService Puck.Reachable.fresh (by rfl))))).1⟩

/-- On the controller that holds service A with the characteristic `c1`: no
characteristic has the UUID `c2`, so `getCharacteristicValue(c2)` is `NULL`;
`getCharacteristicValue(c1)` is the buffer of `c1`. -/
theorem Puck.getCharacteristicValue_first_match_witness :
    (∀ c ∈ sampleOneService.characteristics,
      isEqualUUID c.uuid (sampleCharacteristic 2) = false) ∧
    Puck.getCharacteristicValue (sampleCharacteristic 2) sampleOneService = none ∧
    Puck.getCharacteristicValue (sampleCharacteristic 1) sampleOneService = some 0 ∧
    (sampleOneService.characteristics.find?
        (fun c => isEqualUUID c.uuid (sampleCharacteristic 1))).bind (fun c => c.valuePtr) =
      some 0 :=
  ⟨by decide,
    (Puck.getCharacteristicValue_first_match (sampleCharacteristic 2) sampleOneService).2.1
      (by decide),
    by rfl, by rfl⟩

/-- The call `addCharacteristic(A, c2, 21, 0xA)` on the controller that holds
service A with one characteristic aborts and leaves the controller as it was. -/
theorem Puck.addCharacteristic_aborts_iff_witness :
    (21 : Int) > 20 ∧
    Puck.addCharacteristic sampleServiceA (sampleCharacteristic 2) 21 0xA sampleOneService =
      Except.error (Fault.assertion, sampleOneService) ∧
    (Puck.addCharacteristic sampleServiceA (sampleCharacteristic 2) 20 0xA sampleOneService ≠
      Except.error (Fault.assertion, sampleOneService)) :=
  ⟨by decide,
    (Puck.addCharacteristic_aborts_iff sampleServiceA (sampleCharacteristic 2) 21 0xA
      sampleOneService).1.mpr (by decide),
    fun h => absurd
      ((Puck.addCharacteristic_aborts_iff sampleServiceA (sampleCharacteristic 2) 20 0xA
        sampleOneService).1.mp h) (by decide)⟩
